import Mathlib

/-!
# A shallow embedding of json-list-logic (parser, tree-walking evaluator,
# bytecode compiler and virtual machine) with proofs about its specification.

The definitions below are translated from the TypeScript sources:

* src/utils.ts        — KEYWORDS, isValidName, isTruthy
* src/operations.ts   — _SAFE_FNARGS, _BUILTINS (names; a subset of the
                        semantics is embedded, the rest is marked unmodeled)
* the evaluator       — execLogic (execIntern and its special forms)
* src/bytecode.ts     — compileLogic / execByteCode (instructions, compile
                        cases, VM dispatch loop)
* src/parser.ts       — parseLogic (tokenizer regex and push-down automaton)

Modeling conventions:

* JavaScript numbers are embedded as exact integers together with explicit
  NaN, ±Infinity and not-represented markers (JSNum).  All programs appearing
  in theorems only perform small-integer arithmetic, where IEEE-754 doubles
  are exact, so no rounding behaviour is lost for any statement proved here.
* JavaScript objects used as scope frames are mutable; they live in an
  explicit store (a list of frames addressed by position) so that mutation
  and aliasing (including a scope object flowing into the value world via
  the argument frame) are represented faithfully.  Allocation appends.
* undefined and null are distinct values (vundef / vnull).
* Errors carry their JavaScript error class (SyntaxError, TypeError,
  ReferenceError, Error).  Recursion is made total with an explicit fuel
  argument; running out of fuel is the distinguished outcome Err.outOfFuel,
  never confused with a program error.
* Host-dependent built-ins (dates, random, printing, JSON, math on
  transcendental functions …) are registered by name — so that the
  `op in operations` membership test behaves exactly like the source — but
  applying them yields the distinguished outcome Err.unmodeled.  No theorem
  below evaluates any of them.
-/

/-- JavaScript numbers.  Integer-valued doubles are modeled exactly as
integers (every program appearing in a theorem below only performs
small-integer arithmetic, which doubles represent exactly); NaN and the
signed infinities are explicit; `unrep` marks a finite non-integral double
(a fractional literal, an inexact quotient) or anything computed from one —
no theorem in this file ever produces an `unrep`. -/
inductive JSNum where
  | num (n : Int)
  | nan
  | inf (neg : Bool)
  | unrep
deriving DecidableEq, Repr

namespace JSNum

/-- JavaScript addition on numbers. -/
def add : JSNum → JSNum → JSNum
  | nan, _ => nan
  | _, nan => nan
  | unrep, _ => unrep
  | _, unrep => unrep
  | inf a, inf b => if a = b then inf a else nan
  | inf a, num _ => inf a
  | num _, inf b => inf b
  | num a, num b => num (a + b)

/-- JavaScript numeric negation. -/
def negate : JSNum → JSNum
  | nan => nan
  | unrep => unrep
  | inf a => inf (!a)
  | num q => num (-q)

/-- JavaScript subtraction on numbers. -/
def sub (a b : JSNum) : JSNum := add a (negate b)

/-- JavaScript multiplication on numbers. -/
def mul : JSNum → JSNum → JSNum
  | nan, _ => nan
  | _, nan => nan
  | unrep, _ => unrep
  | _, unrep => unrep
  | inf a, inf b => inf (a != b)
  | inf a, num q => if q = 0 then nan else inf (a != decide (q < 0))
  | num q, inf b => if q = 0 then nan else inf (b != decide (q < 0))
  | num a, num b => num (a * b)

/-- JavaScript division on numbers (x/0 gives ±Infinity, 0/0 gives NaN);
an inexact quotient is not representable here. -/
def div : JSNum → JSNum → JSNum
  | nan, _ => nan
  | _, nan => nan
  | unrep, _ => unrep
  | _, unrep => unrep
  | inf _, inf _ => nan
  | inf a, num q => inf (a != decide (q < 0))
  | num _, inf _ => num 0
  | num a, num b =>
    if b = 0 then (if a = 0 then nan else inf (decide (a < 0)))
    else if b ∣ a then num (a / b) else unrep

/-- JavaScript remainder on numbers (truncated division). -/
def mod : JSNum → JSNum → JSNum
  | nan, _ => nan
  | _, nan => nan
  | unrep, _ => unrep
  | _, unrep => unrep
  | inf _, _ => nan
  | num a, inf _ => num a
  | num a, num b => if b = 0 then nan else num (a.tmod b)

/-- JavaScript `<` on two numbers (false whenever NaN is involved;
comparisons against an unrepresented number are themselves
unrepresentable and conservatively false — never reached below). -/
def lt : JSNum → JSNum → Bool
  | nan, _ => false
  | _, nan => false
  | unrep, _ => false
  | _, unrep => false
  | inf a, inf b => a && !b
  | inf a, num _ => a
  | num _, inf b => !b
  | num a, num b => decide (a < b)

/-- JavaScript `<=` on two numbers (same conventions as lt). -/
def le : JSNum → JSNum → Bool
  | nan, _ => false
  | _, nan => false
  | unrep, _ => false
  | _, unrep => false
  | inf a, inf b => a = b || (a && !b)
  | inf a, num _ => a
  | num _, inf b => !b
  | num a, num b => decide (a ≤ b)

/-- JavaScript ToInt32: NaN/±Infinity become 0, finite values are truncated
toward zero and reduced to a signed 32-bit integer (the unrep case is
never reached by any theorem below). -/
def toInt32 : JSNum → Int
  | nan => 0
  | inf _ => 0
  | unrep => 0
  | num q =>
    let m := q % 4294967296
    if m ≥ 2147483648 then m - 4294967296 else m

/-- JavaScript ToUint32 (used for shift counts, reduced mod 32 later). -/
def shiftCount (n : JSNum) : Nat := ((toInt32 n) % 32).toNat

end JSNum

/-- The JsonListLogic data type (src/logic.ts): null, number, string,
boolean, object (ordered string map) or a JavaScript array whose elements
are again logic values (operation nodes, `[op, ...args]`). -/
inductive Logic where
  | lnull
  | lbool (b : Bool)
  | lnum (n : JSNum)
  | lstr (s : String)
  | lobj (fields : List (String × Logic))
  | lop (items : List Logic)

/-- Strict string comparison against a logic value (`code[0] === 'let'`
and similar tag tests in the sources). -/
def Logic.isStr : Logic → String → Bool
  | .lstr t, s => t = s
  | _, _ => false

/-- Shorthand for integer number literals in logic programs. -/
def lint (n : Int) : Logic := Logic.lnum (JSNum.num n)

mutual
/-- Runtime values.  vref is a reference to a (mutable) scope-frame object in
the store; scope objects flow into the value world through the argument frame
(`fnargs = [null, scope]` at the top level) and through 2-argument `let`. -/
inductive Value where
  | vundef
  | vnull
  | vbool (b : Bool)
  | vnum (n : JSNum)
  | vstr (s : String)
  | varr (xs : List Value)
  | vobj (fields : List (String × Value))
  | vref (addr : Nat)
  | vfun (f : Fn)

/-- Function values: evaluator closures (with or without bound parameter
names, capturing the defining scope's address), built-ins referenced by
name, partially applied functions (`partial`), and VM closures (which only
capture the jump target of the compiled body). -/
inductive Fn where
  | clos (argNames : List String) (body : Logic) (scope : Nat)
  | clos0 (body : Logic) (scope : Nat)
  | builtin (name : String)
  | bound (f : Fn) (boundArgs : List Value)
  | vmClos (jmpPtr : Int)
end

/-- A scope frame: its own bindings plus the prototype link (the parent
scope for frames created with Object.create(scope); none for frames created
with Object.create(null)). -/
structure Frame where
  bindings : List (String × Value)
  parent : Option Nat

/-- The store of allocated scope-frame objects; addresses are positions. -/
abbrev Store := List Frame

/-- Association-list lookup (JavaScript object property read; keys in our
frames and objects are unique because writes go through aSet). -/
def aGet {α : Type} : List (String × α) → String → Option α
  | [], _ => none
  | (k, v) :: rest, key => if k = key then some v else aGet rest key

/-- Association-list write with JavaScript property-set semantics: an
existing key keeps its position and is overwritten, a new key is appended. -/
def aSet {α : Type} : List (String × α) → String → α → List (String × α)
  | [], key, v => [(key, v)]
  | (k, w) :: rest, key, v =>
    if k = key then (k, v) :: rest else (k, w) :: aSet rest key v

/-- Last-occurrence lookup: the value JavaScript ends up with after writing
every pair of the list in order. -/
def aGetLast {α : Type} (m : List (String × α)) (key : String) : Option α :=
  aGet m.reverse key

/-- Read a frame from the store (out-of-range reads never happen for stores
built by the engines; they default to an empty root frame). -/
def getFrame (σ : Store) (a : Nat) : Frame := σ.getD a ⟨[], none⟩

/-- Replace the frame at an address. -/
def setFrame (σ : Store) (a : Nat) (fr : Frame) : Store := σ.set a fr

/-- Allocate a fresh frame, returning its address and the new store. -/
def alloc (σ : Store) (fr : Frame) : Nat × Store := (σ.length, σ ++ [fr])

/-- Write one binding into the frame at an address. -/
def storeSetVar (σ : Store) (a : Nat) (key : String) (v : Value) : Store :=
  setFrame σ a { getFrame σ a with bindings := aSet (getFrame σ a).bindings key v }

/-- Prototype-chain property lookup on scope frames (`scope[name]`), walking
parent links; absent everywhere gives JavaScript undefined (`none` here).
The chain fuel is bounded by the store size; frames only ever point to
previously allocated frames, so the chain cannot cycle. -/
def chainGet (σ : Store) : Nat → Nat → String → Option Value
  | 0, _, _ => none
  | fuel+1, a, key =>
    match aGet (getFrame σ a).bindings key with
    | some v => some v
    | none =>
      match (getFrame σ a).parent with
      | some p => chainGet σ fuel p key
      | none => none

/-- `scope[name]` as used by the engines. -/
def scopeGet (σ : Store) (a : Nat) (key : String) : Option Value :=
  chainGet σ (σ.length + 1) a key

/-- Does a for-in loop over the scope object at this address see any key?
(for-in enumerates own and inherited enumerable properties). -/
def chainHasKey (σ : Store) : Nat → Nat → Bool
  | 0, _ => false
  | fuel+1, a =>
    !(getFrame σ a).bindings.isEmpty ||
      (match (getFrame σ a).parent with
       | some p => chainHasKey σ fuel p
       | none => false)

/-- All keys a for-in loop over the scope object at this address visits,
own frame first, then inherited, without duplicates. -/
def chainKeys (σ : Store) : Nat → Nat → List String
  | 0, _ => []
  | fuel+1, a =>
    let own := (getFrame σ a).bindings.map Prod.fst
    match (getFrame σ a).parent with
    | some p => own ++ ((chainKeys σ fuel p).filter (fun k => !own.contains k))
    | none => own

/-- Plain JavaScript falsiness (`!value`): undefined, null, false, ±0, NaN
and the empty string are falsy; every object, array and function is truthy. -/
def jsFalsy : Value → Bool
  | .vundef => true
  | .vnull => true
  | .vbool b => !b
  | .vnum (.num q) => q = 0
  | .vnum .nan => true
  | .vnum (.inf _) => false
  | .vstr s => s = ""
  | _ => false

/-- isTruthy from src/utils.ts: plain falsiness first, then arrays are
truthy iff non-empty, then objects are truthy iff a for-in loop sees a key
(for scope objects that includes inherited keys, hence the store). -/
def isTruthy (σ : Store) (v : Value) : Bool :=
  if jsFalsy v then false
  else
    match v with
    | .varr xs => !xs.isEmpty
    | .vobj fields => !fields.isEmpty
    | .vref a => chainHasKey σ (σ.length + 1) a
    | _ => true

/-- Is the value a JavaScript function (`typeof arg === 'function'`)? -/
def isFnValue : Value → Bool
  | .vfun _ => true
  | _ => false

/-- A best-effort decimal rendering for number-to-string coercions; only
integers (the only numbers any theorem below touches) are rendered. -/
def numToString? (n : JSNum) : Option String :=
  match n with
  | .num q => some (toString q)
  | .nan => some "NaN"
  | .inf b => some (if b then "-Infinity" else "Infinity")
  | .unrep => none

/-- Parse a (trimmed) string as a JavaScript number; only the integer forms
are modeled (none of the theorems below coerces a non-integer numeric
string), everything non-numeric gives NaN exactly as in JavaScript. -/
def stringToNum (s : String) : JSNum :=
  let t := String.mk
    (((s.data.dropWhile Char.isWhitespace).reverse.dropWhile Char.isWhitespace).reverse)
  if t.data.isEmpty then .num 0
  else
    let core := fun (cs : List Char) =>
      if !cs.isEmpty && cs.all Char.isDigit then
        some (cs.foldl (fun (n : Nat) c => n * 10 + (c.toNat - 48)) 0)
      else none
    match t.data with
    | '-' :: rest =>
      match core rest with
      | some n => .num (-(n : Int))
      | none => .nan
    | '+' :: rest =>
      match core rest with
      | some n => .num (n : Int)
      | none => .nan
    | cs =>
      match core cs with
      | some n => .num (n : Int)
      | none => .nan

/-- Error classes of the engines (src/errors.ts and the JavaScript classes
thrown by the evaluator/compiler/VM), plus the two modeling-only outcomes. -/
inductive Err where
  | syntaxError
  | typeError
  | referenceError
  | jsError
  | outOfFuel
  | unmodeled
deriving DecidableEq, Repr

/-- JavaScript ToNumber / ToNumeric.  Arrays coerce through their string
rendering; the empty array gives 0 and a singleton numeric array its
element, which are the only array cases JavaScript's string round-trip
makes exact; plain objects coerce through Object.prototype.toString to
"[object Object]" and hence NaN, functions through their source text to
NaN.  A scope object has a null-prototype-rooted chain — no valueOf and no
toString — so ToPrimitive on it throws a TypeError.  No theorem below
coerces a composite other than a scope object. -/
def toNumber : Value → Except Err JSNum
  | .vundef => .ok .nan
  | .vnull => .ok (.num 0)
  | .vbool b => .ok (.num (if b then 1 else 0))
  | .vnum n => .ok n
  | .vstr s => .ok (stringToNum s)
  | .varr [] => .ok (.num 0)
  | .varr [.vnum n] => .ok n
  | .varr _ => .ok .nan
  | .vobj _ => .ok .nan
  | .vref _ => .error .typeError
  | .vfun _ => .ok .nan

/-- JavaScript `<` on two values: string-to-string comparison is
lexicographic, anything else goes through ToNumber (which can throw). -/
def jsLtV (a b : Value) : Except Err Bool :=
  match a, b with
  | .vstr x, .vstr y => .ok (decide (x < y))
  | _, _ => do
    let x ← toNumber a
    let y ← toNumber b
    .ok (JSNum.lt x y)

/-- JavaScript `>` on two values. -/
def jsGtV (a b : Value) : Except Err Bool :=
  match a, b with
  | .vstr x, .vstr y => .ok (decide (y < x))
  | _, _ => do
    let x ← toNumber a
    let y ← toNumber b
    .ok (JSNum.lt y x)

/-- JavaScript `<=` on two values. -/
def jsLeV (a b : Value) : Except Err Bool :=
  match a, b with
  | .vstr x, .vstr y => .ok (decide (x ≤ y))
  | _, _ => do
    let x ← toNumber a
    let y ← toNumber b
    .ok (JSNum.le x y)

/-- JavaScript `>=` on two values. -/
def jsGeV (a b : Value) : Except Err Bool :=
  match a, b with
  | .vstr x, .vstr y => .ok (decide (y ≤ x))
  | _, _ => do
    let x ← toNumber a
    let y ← toNumber b
    .ok (JSNum.le y x)

/-- KEYWORDS from src/utils.ts. -/
def KEYWORDS : List String :=
  ["fn", "var", "arg", "let", "if", "and", "or", "??", "partial",
   "Infinity", "NaN", "null", "true", "false"]

/-- isValidName from src/utils.ts.  The regular expression
`/^[a-zA-Z][_a-zA-Z0-9]*/` is not anchored at the end, so it only requires
the first character to be an ASCII letter. -/
def isValidName (s : String) : Bool :=
  (match s.data with
   | c :: _ => (c.isUpper || c.isLower)
   | [] => false) && !KEYWORDS.contains s

/-- _SAFE_FNARGS from src/operations.ts: per built-in, which argument
positions may receive a function value in sandboxed mode. -/
def SAFE_FNARGS : List (String × List Bool) :=
  [("id", [true]), ("toString", [true]), ("isArray", [true]),
   ("typeof", [true]), ("every", [false, true]), ("some", [false, true]),
   ("none", [false, true]), ("map", [false, true]),
   ("reduce", [false, true, false]), ("filter", [false, true])]

/-- The keys of _BUILTINS from src/operations.ts, in source order; used for
the `op in operations` membership tests. -/
def builtinNames : List String :=
  ["string", "array", "object", "get", "+", "-", "*", "/", "%", "|", "&",
   "<<", ">>", "^", "~", "!", "!!", "<", ">", "<=", ">=", "==", "!=",
   "toString", "id", "print", "keys", "items", "values", "isEmpty", "has",
   "mergeObjects", "substr", "parseJSON", "stringify", "in", "slice",
   "length", "head", "tail", "every", "some", "none", "join", "concat",
   "flatten", "map", "reduce", "filter", "toArray", "range", "zip",
   "combinations", "typeof", "isArray", "now", "parseDate", "timestamp",
   "formatDateTime", "formatDate", "yearOf", "monthOf", "dateOf", "hoursOf",
   "minutesOf", "secondsOf", "timeSince", "seconds", "minutes", "hours",
   "days", "isFinite", "isNaN", "parseInt", "parseFloat", "EPSILON", "E",
   "LN10", "LN2", "LOG2E", "LOG10E", "PI", "SQRT1_2", "SQRT2", "abs",
   "acos", "asin", "atan", "atan2", "ceil", "cos", "exp", "floor", "log",
   "pow", "round", "sin", "sqrt", "tan"]

/-- `safeFnargs[op]?.[argind]` coerced to a boolean: does the safety table
mark this argument position of this operator as allowed to be a function? -/
def safeAllows (tbl : List (String × List Bool)) (op : String) (i : Nat) : Bool :=
  match aGet tbl op with
  | some bs => bs.getD i false
  | none => false

/-- The sandbox test at the evaluator's and compiler's call sites:
`safeFnargs && !safeFnargs[op]?.[argind] && typeof arg === 'function'`
(the table is null exactly when allowTuringComplete is set). -/
def sandboxRejects (tbl? : Option (List (String × List Bool)))
    (op : String) (i : Nat) (v : Value) : Bool :=
  match tbl? with
  | none => false
  | some tbl => !safeAllows tbl op i && isFnValue v

/-- Property keys occurring in `var`/`arg` paths, coerced to strings the way
JavaScript coerces property keys.  Array/object keys are not modeled. -/
def propKeyOf : Logic → Except Err String
  | .lstr s => .ok s
  | .lnum n =>
    match numToString? n with
    | some s => .ok s
    | none => .error .unmodeled
  | .lbool b => .ok (if b then "true" else "false")
  | .lnull => .ok "null"
  | _ => .error .unmodeled

/-- A string key that denotes the canonical array index i. -/
def keyAsIndex (key : String) : Option Nat :=
  match key.toNat? with
  | some i => if toString i = key then some i else none
  | none => none

/-- `hasOwnProperty.call(obj, key)` paired with the property read `obj[key]`:
returns the own property's value, or none if absent.  Calling it on
undefined or null throws a TypeError (ToObject coercion), as in JavaScript.
Own properties of function objects and of boxed numbers/booleans are not
modeled (none of them is enumerable data anyway). -/
def ownProp (σ : Store) : Value → String → Except Err (Option Value)
  | .vundef, _ => .error .typeError
  | .vnull, _ => .error .typeError
  | .vobj fields, key => .ok (aGet fields key)
  | .vref a, key => .ok (aGet (getFrame σ a).bindings key)
  | .varr xs, key =>
    if key = "length" then .ok (some (.vnum (.num xs.length)))
    else
      match keyAsIndex key with
      | some i => .ok (xs.get? i)
      | none => .ok none
  | .vstr s, key =>
    if key = "length" then .ok (some (.vnum (.num s.length)))
    else
      match keyAsIndex key with
      | some i => .ok ((s.data.get? i).map (fun c => .vstr (String.mk [c])))
      | none => .ok none
  | _, _ => .ok none

/-- `obj ?? null`. -/
def jsNullish : Value → Value
  | .vundef => .vnull
  | .vnull => .vnull
  | v => v

/-- Is the value JavaScript-nullish (`value == null`)? -/
def isNullish : Value → Bool
  | .vundef => true
  | .vnull => true
  | _ => false

/-- The property-path loop shared by the `var` and `arg` special forms:
`for (const key of path) { if (!hasOwnProperty.call(obj, key)) return null;
obj = obj[key]; } return obj ?? null;`. -/
def walkPath (σ : Store) : Value → List Logic → Except Err Value
  | obj, [] => .ok (jsNullish obj)
  | obj, k :: rest => do
    let key ← propKeyOf k
    match ← ownProp σ obj key with
    | some v => walkPath σ v rest
    | none => .ok .vnull

/-- Validate `fn` parameter names: each must be a string passing
isValidName, else the evaluator raises a SyntaxError. -/
def validNameList : List Logic → Option (List String)
  | [] => some []
  | .lstr s :: rest =>
    if isValidName s then (validNameList rest).map (fun ns => s :: ns) else none
  | _ :: _ => none

/-- Bind call arguments into a fresh function scope:
`for (let index = 0; index < args.length; ++index)
   nestedScope[argNames[index]] = args[index];`
— when there are more arguments than names, `argNames[index]` is undefined
and JavaScript writes to the property key "undefined". -/
def bindParams (σ : Store) (ns : Nat) (names : List String) : List Value → Nat → Store
  | [], _ => σ
  | a :: rest, index =>
    bindParams (storeSetVar σ ns (names.getD index "undefined") a) ns names rest (index + 1)

/-- typeof for runtime values. -/
def typeofV : Value → String
  | .vundef => "undefined"
  | .vnull => "object"
  | .vbool _ => "boolean"
  | .vnum _ => "number"
  | .vstr _ => "string"
  | .varr _ => "object"
  | .vobj _ => "object"
  | .vref _ => "object"
  | .vfun _ => "function"

/-- Strict equality (===).  Primitives compare by value (NaN !== NaN),
values of different typeof are never equal, scope objects compare by
identity (their address); identity of other composite values is not
tracked by this embedding, so comparing two of them is unmodeled. -/
def strictEqV : Value → Value → Except Err Bool
  | .vundef, .vundef => .ok true
  | .vnull, .vnull => .ok true
  | .vbool a, .vbool b => .ok (a = b)
  | .vnum (.num a), .vnum (.num b) => .ok (a = b)
  | .vnum .nan, .vnum _ => .ok false
  | .vnum _, .vnum .nan => .ok false
  | .vnum (.inf a), .vnum (.inf b) => .ok (a = b)
  | .vnum (.inf _), .vnum (.num _) => .ok false
  | .vnum (.num _), .vnum (.inf _) => .ok false
  | .vstr a, .vstr b => .ok (a = b)
  | .vref a, .vref b => .ok (a = b)
  | .varr _, .varr _ => .error .unmodeled
  | .vobj _, .vobj _ => .error .unmodeled
  | .vfun _, .vfun _ => .error .unmodeled
  | _, _ => .ok false

/-- Wrap an Int back into signed 32-bit range (used after `<<`). -/
def wrap32 (n : Int) : Int :=
  let m := n % 4294967296
  if m ≥ 2147483648 then m - 4294967296 else m

/-- Signed 32-bit bitwise operations via the two's-complement unsigned
image. -/
def bitop32 (f : Nat → Nat → Nat) (a b : Int) : Int :=
  let ua := (a % 4294967296).toNat
  let ub := (b % 4294967296).toNat
  wrap32 (f ua ub)

/-- The pair loop of the chained comparisons: stops at the first failing
pair (the source returns false there, so later elements are never
coerced). -/
def chainCompareGo (rel : Value → Value → Except Err Bool) :
    Value → List Value → Except Err Value
  | _, [] => .ok (.vbool true)
  | a, b :: rest => do
    let r ← rel a b
    if r then chainCompareGo rel b rest else .ok (.vbool false)

/-- The chained variadic comparisons `< > <= >=` from src/operations.ts:
at least two arguments, and every adjacent pair must satisfy the
relation. -/
def chainCompare (rel : Value → Value → Except Err Bool) :
    List Value → Except Err Value
  | [] => .error .typeError
  | [_] => .error .typeError
  | a :: b :: rest => chainCompareGo rel a (b :: rest)

/-- Enumerate an array as JavaScript object entries ("0", "1", …) for
Object.assign copying (2-argument `let` on an array value). -/
def arrEntries (xs : List Value) : List (String × Value) :=
  (List.range xs.length).zip xs |>.map (fun p => (toString p.1, p.2))

/-- Coerce a value to a JavaScript property key (String(value)); composite
values are not modeled. -/
def valueToKey : Value → Option String
  | .vstr s => some s
  | .vnum n => numToString? n
  | .vbool b => some (if b then "true" else "false")
  | .vnull => some "null"
  | .vundef => some "undefined"
  | _ => none

/-- The characters of a string as single-character string values (what the
Array.prototype generics see when called on a string). -/
def strChars (s : String) : List Value :=
  s.data.map (fun c => .vstr (String.mk [c]))

/-- The entries a for-in loop over a value visits: own enumerable string
keys for plain objects, chain keys for scope objects, nothing for
primitives and functions. -/
def forInEntries (σ : Store) : Value → List (String × Value)
  | .vobj fields => fields
  | .vref a =>
    (chainKeys σ (σ.length + 1) a).map
      (fun k => (k, (scopeGet σ a k).getD .vundef))
  | _ => []

/-- The pure built-ins of src/operations.ts (those that neither call back
into the engine nor depend on the host).  Returns none for names whose
semantics are not embedded here. -/
def applyPure (σ : Store) (name : String) (args : List Value) : Option (Except Err Value) :=
  match name with
  | "array" => some (.ok (.varr args))
  | "+" =>
    some ((args.foldlM (fun (acc : JSNum) a =>
      (toNumber a).map (fun n => JSNum.add acc n)) (JSNum.num 0)).map
        (fun n => Value.vnum n))
  | "-" =>
    some (do
      let x ← toNumber (args.getD 0 .vundef)
      if args.length = 1 then .ok (.vnum (JSNum.negate x))
      else do
        let y ← toNumber (args.getD 1 .vundef)
        .ok (.vnum (JSNum.sub x y)))
  | "*" =>
    some ((args.foldlM (fun (acc : JSNum) a =>
      (toNumber a).map (fun n => JSNum.mul acc n)) (JSNum.num 1)).map
        (fun n => Value.vnum n))
  | "/" =>
    some (do
      let x ← toNumber (args.getD 0 .vundef)
      let y ← toNumber (args.getD 1 .vundef)
      .ok (.vnum (JSNum.div x y)))
  | "%" =>
    some (do
      let x ← toNumber (args.getD 0 .vundef)
      let y ← toNumber (args.getD 1 .vundef)
      .ok (.vnum (JSNum.mod x y)))
  | "|" =>
    some ((args.foldlM (fun (acc : Int) a =>
      (toNumber a).map (fun n => bitop32 Nat.lor acc (JSNum.toInt32 n)))
      (0 : Int)).map (fun n => Value.vnum (.num n)))
  | "&" =>
    match args with
    | [] => some (.error .typeError)
    | [a] => some (.ok a)
    | a :: rest =>
      some (do
        let first ← toNumber a
        let r ← rest.foldlM (fun (acc : Int) b =>
          (toNumber b).map (fun n => bitop32 Nat.land acc (JSNum.toInt32 n)))
          (JSNum.toInt32 first)
        .ok (.vnum (.num r)))
  | "^" =>
    some (do
      let x ← toNumber (args.getD 0 .vundef)
      let y ← toNumber (args.getD 1 .vundef)
      .ok (.vnum (.num (bitop32 Nat.xor (JSNum.toInt32 x) (JSNum.toInt32 y)))))
  | "~" =>
    some (do
      let x ← toNumber (args.getD 0 .vundef)
      .ok (.vnum (.num (-(JSNum.toInt32 x) - 1))))
  | "<<" =>
    some (do
      let x ← toNumber (args.getD 0 .vundef)
      let y ← toNumber (args.getD 1 .vundef)
      .ok (.vnum (.num (wrap32 ((JSNum.toInt32 x) * (2 ^ (JSNum.shiftCount y)))))))
  | ">>" =>
    some (do
      let x ← toNumber (args.getD 0 .vundef)
      let y ← toNumber (args.getD 1 .vundef)
      .ok (.vnum (.num (Int.fdiv (JSNum.toInt32 x) (2 ^ (JSNum.shiftCount y))))))
  | "!" => some (.ok (.vbool (!isTruthy σ (args.getD 0 .vundef))))
  | "!!" => some (.ok (.vbool (isTruthy σ (args.getD 0 .vundef))))
  | "<" => some (chainCompare jsLtV args)
  | ">" => some (chainCompare jsGtV args)
  | "<=" => some (chainCompare jsLeV args)
  | ">=" => some (chainCompare jsGeV args)
  | "==" =>
    some ((strictEqV (args.getD 0 .vundef) (args.getD 1 .vundef)).map (fun b => .vbool b))
  | "!=" =>
    some ((strictEqV (args.getD 0 .vundef) (args.getD 1 .vundef)).map (fun b => .vbool (!b)))
  | "id" => some (.ok (args.getD 0 .vundef))
  | "typeof" => some (.ok (.vstr (typeofV (args.getD 0 .vundef))))
  | "isArray" =>
    some (.ok (.vbool (match args.getD 0 .vundef with | .varr _ => true | _ => false)))
  | "length" =>
    some (.ok (.vnum (.num (
      match args.getD 0 .vundef with
      | .vundef => 0
      | .vnull => 0
      | .varr xs => xs.length
      | .vstr s => s.length
      | .vobj fields => fields.length
      | .vref a => (chainKeys σ (σ.length + 1) a).length
      | _ => 0))))
  | "head" =>
    some (.ok (
      match args.getD 0 .vundef with
      | .varr xs => jsNullish (xs.getD 0 .vundef)
      | .vstr s => jsNullish ((strChars s).getD 0 .vundef)
      | _ => .vnull))
  | "isEmpty" =>
    some (.ok (.vbool (
      match args.getD 0 .vundef with
      | .varr xs => xs.isEmpty
      | .vobj fields => fields.isEmpty
      | .vref a => !chainHasKey σ (σ.length + 1) a
      | _ => true)))
  | "object" =>
    let step : List (String × Value) → Value → Except Err (List (String × Value)) :=
      fun fields a =>
        match a with
        | .varr elts =>
          match valueToKey (elts.getD 0 .vundef) with
          | some k => .ok (aSet fields k (elts.getD 1 .vundef))
          | none => .error .unmodeled
        | .vstr s =>
          match valueToKey ((strChars s).getD 0 .vundef) with
          | some k => .ok (aSet fields k ((strChars s).getD 1 .vundef))
          | none => .error .unmodeled
        | _ => .error .typeError
    some ((args.foldlM step []).map (fun fields => Value.vobj fields))
  | _ => none

/-- Names of the built-ins whose semantics call back into the evaluator
(they receive a function argument). -/
def higherOrderNames : List String :=
  ["map", "reduce", "filter", "every", "some", "none"]


/-- The per-call evaluation context: the allowTuringComplete flag and the
safety table (null exactly in Turing-complete mode, otherwise the per-call
copy of _SAFE_FNARGS; no custom operations are registered in any evaluation
appearing below, matching `operations = _BUILTINS`). -/
structure Ctx where
  atc : Bool
  safeTbl : Option (List (String × List Bool))

/-- Requests of the evaluator: execIntern itself plus each loop of the
source (the special-form loops, argument evaluation, function invocation
and the higher-order built-ins).  The whole evaluator is one function
structurally recursive on fuel, so that closed evaluations reduce
definitionally; each request constructor corresponds to one loop of the
source and the translation comments live at the corresponding case. -/
inductive Req where
  | intern (code : Logic) (scope : Nat) (fnargs : List Value)
  | ifLoop (args : List Logic) (scope : Nat) (fnargs : List Value)
  | orLoop (args : List Logic) (scope : Nat) (fnargs : List Value)
  | nullLoop (args : List Logic) (scope : Nat) (fnargs : List Value)
  | andLoop (args : List Logic) (scope : Nat) (fnargs : List Value)
  | letChain (letNode : Logic) (ns : Nat) (fnargs : List Value)
  | namedBound (s : String) (boundExprs : List Logic) (scope : Nat) (fnargs : List Value)
  | argsChecked (opName : String) (argind : Nat) (exprs : List Logic) (scope : Nat) (fnargs : List Value)
  | argsPlain (exprs : List Logic) (scope : Nat) (fnargs : List Value)
  | argsAtcCheck (exprs : List Logic) (scope : Nat) (fnargs : List Value)
  | objFields (fields : List (String × Logic)) (scope : Nat) (fnargs : List Value) (acc : List (String × Value))
  | call (f : Fn) (thisV : Value) (args : List Value)
  | callValue (v : Value) (args : List Value)
  | applyB (name : String) (args : List Value)
  | mapB (items func : Value)
  | mapArr (f : Fn) (xs : List Value) (idx : Nat) (coll : Value)
  | mapObj (func : Value) (entries : List (String × Value))
  | everyL (func : Value) (xs : List Value) (target : Bool)
  | reduceB (items func init : Value)
  | reduceArr (f : Fn) (xs : List Value) (idx : Nat) (acc : Value) (coll : Value)
  | reduceObj (func : Value) (entries : List (String × Value)) (acc : Value)
  | filterB (items func : Value)
  | filterArr (f : Fn) (xs : List Value) (idx : Nat) (coll : Value)
  | filterObj (func : Value) (entries : List (String × Value))

/-- Results of the evaluator's requests: one value, a list of evaluated
arguments, or a list of object fields. -/
inductive Resp where
  | val (v : Value)
  | vals (vs : List Value)
  | fields (fs : List (String × Value))

/-- Project a request result onto a single value (the cases where another
variant comes back are impossible and mapped to the unmodeled marker). -/
def toVal : Except Err (Resp × Store) → Except Err (Value × Store)
  | .ok (.val v, σ) => .ok (v, σ)
  | .ok (_, _) => .error .unmodeled
  | .error e => .error e

/-- Project a request result onto an argument list. -/
def toVals : Except Err (Resp × Store) → Except Err (List Value × Store)
  | .ok (.vals vs, σ) => .ok (vs, σ)
  | .ok (_, _) => .error .unmodeled
  | .error e => .error e

/-- Project a request result onto an object field list. -/
def toFields : Except Err (Resp × Store) → Except Err (List (String × Value) × Store)
  | .ok (.fields fs, σ) => .ok (fs, σ)
  | .ok (_, _) => .error .unmodeled
  | .error e => .error e

set_option maxHeartbeats 3200000 in
/-- The tree-walking evaluator (execIntern of part_002, lines 951-1258,
together with the higher-order built-ins of src/operations.ts it can call
back into).  Structurally recursive on the fuel argument. -/
def evalGo (ctx : Ctx) : Nat → Req → Store → Except Err (Resp × Store)
  | 0, _, _ => .error .outOfFuel
  | fuel+1, req, σ =>
    match req with
    | .intern code scope fnargs =>
      match code with
      | .lop [] => .error .referenceError
      | .lop (op :: args) =>
        if op.isStr "fn" then
          -- case 'fn': 0/1 elements give a null body, 2 a body closing over
          -- the current scope, 3 validate and bind parameter names (an
          -- empty name list also closes over the current scope).
          match args with
          | [] => .ok (.val (.vfun (.clos0 .lnull scope)), σ)
          | [body] => .ok (.val (.vfun (.clos0 body scope)), σ)
          | [arg1, body] =>
            let argNames : List Logic :=
              match arg1 with | .lop xs => xs | other => [other]
            if argNames.isEmpty then .ok (.val (.vfun (.clos0 body scope)), σ)
            else
              match validNameList argNames with
              | some names => .ok (.val (.vfun (.clos names body scope)), σ)
              | none => .error .syntaxError
          | _ => .error .syntaxError
        else if op.isStr "var" then
          -- case 'var': the first path element resolves through the scope
          -- chain, the rest uses the hasOwnProperty walk.
          match args with
          | [] => .error .syntaxError
          | k0 :: rest => do
            let key0 ← propKeyOf k0
            let v ← walkPath σ ((scopeGet σ scope key0).getD .vundef) rest
            .ok (.val v, σ)
        else if op.isStr "arg" then
          -- case 'arg': the whole path walks from the argument frame.
          match args with
          | [] => .error .syntaxError
          | _ => do
            let v ← walkPath σ (.varr fnargs) args
            .ok (.val v, σ)
        else if op.isStr "if" then
          if args.length < 2 then .error .syntaxError
          else evalGo ctx fuel (.ifLoop args scope fnargs) σ
        else if op.isStr "or" then
          if args.length < 1 then .error .syntaxError
          else evalGo ctx fuel (.orLoop args scope fnargs) σ
        else if op.isStr "??" then
          if args.length < 1 then .error .syntaxError
          else evalGo ctx fuel (.nullLoop args scope fnargs) σ
        else if op.isStr "and" then
          if args.length < 1 then .error .syntaxError
          else evalGo ctx fuel (.andLoop args scope fnargs) σ
        else if op.isStr "let" then
          match args with
          | [a1, a2] => do
            -- 2-argument let: the evaluated object becomes the scope
            -- frame; a null-prototype object is used as-is (aliased),
            -- anything else is copied into a fresh null-prototype frame.
            let (vars, σ1) ← toVal (evalGo ctx fuel (.intern a1 scope fnargs) σ)
            if jsFalsy vars then .error .typeError
            else
              match vars with
              | .vref a =>
                if (getFrame σ1 a).parent = none then
                  evalGo ctx fuel (.intern a2 a fnargs) σ1
                else
                  let (ns, σ2) := alloc σ1 ⟨(getFrame σ1 a).bindings, none⟩
                  evalGo ctx fuel (.intern a2 ns fnargs) σ2
              | .vobj fields =>
                let (ns, σ2) := alloc σ1 ⟨fields, none⟩
                evalGo ctx fuel (.intern a2 ns fnargs) σ2
              | .varr xs =>
                let (ns, σ2) := alloc σ1 ⟨arrEntries xs, none⟩
                evalGo ctx fuel (.intern a2 ns fnargs) σ2
              | _ => .error .typeError
          | [_, _, _] =>
            -- 3-argument let: one child scope for the whole flattened chain.
            let (ns, σ1) := alloc σ ⟨[], some scope⟩
            evalGo ctx fuel (.letChain (Logic.lop (op :: args)) ns fnargs) σ1
          | _ => .error .syntaxError
        else if op.isStr "partial" then
          match args with
          | [] => .error .syntaxError
          | a1 :: boundExprs =>
            match a1 with
            | .lop _ =>
              -- computed first argument: the Turing-completeness loophole.
              if !ctx.atc then .error .typeError
              else do
                let (v, σ1) ← toVal (evalGo ctx fuel (.intern a1 scope fnargs) σ)
                match v with
                | .vfun f =>
                  if boundExprs.isEmpty then .ok (.val (.vfun f), σ1)
                  else do
                    let (bound, σ2) ← toVals (evalGo ctx fuel (.argsAtcCheck boundExprs scope fnargs) σ1)
                    .ok (.val (.vfun (.bound f bound)), σ2)
                | .vstr s => evalGo ctx fuel (.namedBound s boundExprs scope fnargs) σ1
                | _ => .error .syntaxError
            | .lstr s => evalGo ctx fuel (.namedBound s boundExprs scope fnargs) σ
            | _ => .error .syntaxError
        else
          -- default dispatch (registry call); a function op is not
          -- representable in the Logic data type, an array op requires
          -- Turing-complete mode, a known name evaluates the arguments
          -- with per-position safety checks.
          match op with
          | .lop _ =>
            if !ctx.atc then .error .typeError
            else do
              let (v, σ1) ← toVal (evalGo ctx fuel (.intern op scope fnargs) σ)
              match v with
              | .vfun f => do
                let (argVals, σ2) ← toVals (evalGo ctx fuel (.argsPlain args scope fnargs) σ1)
                evalGo ctx fuel (.call f .vundef argVals) σ2
              | _ => .error .typeError
          | .lstr s =>
            if builtinNames.contains s then do
              let (argVals, σ1) ← toVals (evalGo ctx fuel (.argsChecked s 0 args scope fnargs) σ)
              evalGo ctx fuel (.applyB s argVals) σ1
            else .error .referenceError
          | _ => .error .referenceError
      | .lobj fields => do
        let (out, σ1) ← toFields (evalGo ctx fuel (.objFields fields scope fnargs []) σ)
        .ok (.val (.vobj out), σ1)
      | .lnull => .ok (.val .vnull, σ)
      | .lbool b => .ok (.val (.vbool b), σ)
      | .lnum n => .ok (.val (.vnum n), σ)
      | .lstr s => .ok (.val (.vstr s), σ)
    | .ifLoop args scope fnargs =>
      -- the 'if' loop: conditions left to right, a truthy condition returns
      -- its paired value; with fewer than two elements left the loop reads
      -- past the node (JavaScript undefined evaluates to null).
      match args with
      | [] => .ok (.val .vnull, σ)
      | [c] => do
        let (_, σ1) ← toVal (evalGo ctx fuel (.intern c scope fnargs) σ)
        .ok (.val .vnull, σ1)
      | c :: v :: rest => do
        let (cv, σ1) ← toVal (evalGo ctx fuel (.intern c scope fnargs) σ)
        if isTruthy σ1 cv then evalGo ctx fuel (.intern v scope fnargs) σ1
        else
          match rest with
          | [] => .ok (.val .vnull, σ1)
          | [e] => evalGo ctx fuel (.intern e scope fnargs) σ1
          | _ => evalGo ctx fuel (.ifLoop rest scope fnargs) σ1
    | .orLoop args scope fnargs =>
      -- 'or': all but the last argument are tested, the first truthy value
      -- is returned, the last argument is returned unconditionally.
      match args with
      | [] => .error .unmodeled
      | [last] => evalGo ctx fuel (.intern last scope fnargs) σ
      | x :: rest => do
        let (v, σ1) ← toVal (evalGo ctx fuel (.intern x scope fnargs) σ)
        if isTruthy σ1 v then .ok (.val v, σ1)
        else evalGo ctx fuel (.orLoop rest scope fnargs) σ1
    | .nullLoop args scope fnargs =>
      -- '??': the first non-nullish value, else the last argument.
      match args with
      | [] => .error .unmodeled
      | [last] => evalGo ctx fuel (.intern last scope fnargs) σ
      | x :: rest => do
        let (v, σ1) ← toVal (evalGo ctx fuel (.intern x scope fnargs) σ)
        if !isNullish v then .ok (.val v, σ1)
        else evalGo ctx fuel (.nullLoop rest scope fnargs) σ1
    | .andLoop args scope fnargs =>
      -- 'and': the first falsy value, else the last argument.
      match args with
      | [] => .error .unmodeled
      | [last] => evalGo ctx fuel (.intern last scope fnargs) σ
      | x :: rest => do
        let (v, σ1) ← toVal (evalGo ctx fuel (.intern x scope fnargs) σ)
        if !isTruthy σ1 v then .ok (.val v, σ1)
        else evalGo ctx fuel (.andLoop rest scope fnargs) σ1
    | .letChain letNode ns fnargs =>
      -- the flattened chain of 3-argument let: every binding is written
      -- into the same child scope, each initializer evaluated in it; the
      -- innermost body runs in the same scope.
      match letNode with
      | .lop [_, vn, init, child] =>
        match vn with
        | .lstr name => do
          let (v, σ1) ← toVal (evalGo ctx fuel (.intern init ns fnargs) σ)
          let σ2 := storeSetVar σ1 ns name v
          match child with
          | .lop citems =>
            if citems.length = 4 && (citems.getD 0 Logic.lnull).isStr "let" then
              evalGo ctx fuel (.letChain child ns fnargs) σ2
            else evalGo ctx fuel (.intern child ns fnargs) σ2
          | _ => evalGo ctx fuel (.intern child ns fnargs) σ2
        | _ => .error .syntaxError
      | _ => .error .unmodeled
    | .namedBound s boundExprs scope fnargs =>
      -- partial over an operation name: the bound arguments are checked
      -- against the safety table under the key "partial" (the outer switch
      -- variable `op`).
      if builtinNames.contains s then
        if boundExprs.isEmpty then .ok (.val (.vfun (.builtin s)), σ)
        else do
          let (bound, σ1) ← toVals (evalGo ctx fuel (.argsChecked "partial" 0 boundExprs scope fnargs) σ)
          .ok (.val (.vfun (.bound (.builtin s) bound)), σ1)
      else .error .referenceError
    | .argsChecked opName argind exprs scope fnargs =>
      -- argument evaluation for registry dispatch: left to right, each
      -- value checked against its safety-table position.
      match exprs with
      | [] => .ok (.vals [], σ)
      | e :: rest => do
        let (v, σ1) ← toVal (evalGo ctx fuel (.intern e scope fnargs) σ)
        if sandboxRejects ctx.safeTbl opName argind v then .error .typeError
        else do
          let (vs, σ2) ← toVals (evalGo ctx fuel (.argsChecked opName (argind+1) rest scope fnargs) σ1)
          .ok (.vals (v :: vs), σ2)
    | .argsPlain exprs scope fnargs =>
      -- argument evaluation without safety checks (calls through a
      -- computed closure, which already required Turing-complete mode).
      match exprs with
      | [] => .ok (.vals [], σ)
      | e :: rest => do
        let (v, σ1) ← toVal (evalGo ctx fuel (.intern e scope fnargs) σ)
        let (vs, σ2) ← toVals (evalGo ctx fuel (.argsPlain rest scope fnargs) σ1)
        .ok (.vals (v :: vs), σ2)
    | .argsAtcCheck exprs scope fnargs =>
      -- bound arguments of partial over a computed function: a function
      -- value is rejected when Turing-complete mode is off (dead in
      -- practice since the branch required the mode; present in source).
      match exprs with
      | [] => .ok (.vals [], σ)
      | e :: rest => do
        let (v, σ1) ← toVal (evalGo ctx fuel (.intern e scope fnargs) σ)
        if !ctx.atc && isFnValue v then .error .typeError
        else do
          let (vs, σ2) ← toVals (evalGo ctx fuel (.argsAtcCheck rest scope fnargs) σ1)
          .ok (.vals (v :: vs), σ2)
    | .objFields fields scope fnargs acc =>
      -- object literal: fields in order, last write wins.
      match fields with
      | [] => .ok (.fields acc, σ)
      | (k, e) :: rest => do
        let (v, σ1) ← toVal (evalGo ctx fuel (.intern e scope fnargs) σ)
        evalGo ctx fuel (.objFields rest scope fnargs (aSet acc k v)) σ1
    | .call f thisV args =>
      -- invoking a function value: closures allocate a child scope of the
      -- defining scope and bind parameters; the argument frame becomes
      -- [this, ...args]; built-ins dispatch by name; partial applications
      -- prepend their bound arguments and call with undefined receiver.
      match f with
      | .clos names body scopeA =>
        let (ns, σ1) := alloc σ ⟨[], some scopeA⟩
        let σ2 := bindParams σ1 ns names args 0
        evalGo ctx fuel (.intern body ns (thisV :: args)) σ2
      | .clos0 body scopeA => evalGo ctx fuel (.intern body scopeA (thisV :: args)) σ
      | .builtin name => evalGo ctx fuel (.applyB name args) σ
      | .bound g boundArgs => evalGo ctx fuel (.call g .vundef (boundArgs ++ args)) σ
      | .vmClos _ => .error .unmodeled
    | .callValue v args =>
      match v with
      | .vfun f => evalGo ctx fuel (.call f .vundef args) σ
      | _ => .error .typeError
    | .applyB name args =>
      -- built-in application: higher-order built-ins re-enter the engine,
      -- pure ones go through applyPure, the rest of the registry is
      -- unmodeled.
      if name = "map" then
        evalGo ctx fuel (.mapB (args.getD 0 .vundef) (args.getD 1 .vundef)) σ
      else if name = "filter" then
        evalGo ctx fuel (.filterB (args.getD 0 .vundef) (args.getD 1 .vundef)) σ
      else if name = "reduce" then
        evalGo ctx fuel (.reduceB (args.getD 0 .vundef) (args.getD 1 .vundef) (args.getD 2 .vundef)) σ
      else if name = "every" then
        match args.getD 0 .vundef with
        | .varr xs => evalGo ctx fuel (.everyL (args.getD 1 .vundef) xs true) σ
        | _ => .ok (.val (.vbool true), σ)
      else if name = "some" then
        match args.getD 0 .vundef with
        | .varr xs => evalGo ctx fuel (.everyL (args.getD 1 .vundef) xs false) σ
        | _ => .ok (.val (.vbool false), σ)
      else if name = "none" then
        match args.getD 0 .vundef with
        | .varr xs => do
          let (r, σ1) ← toVal (evalGo ctx fuel (.everyL (args.getD 1 .vundef) xs false) σ)
          match r with
          | .vbool b => .ok (.val (.vbool (!b)), σ1)
          | _ => .error .unmodeled
        | _ => .ok (.val (.vbool true), σ)
      else
        match applyPure σ name args with
        | some r => do
          let v ← r
          .ok (.val v, σ)
        | none =>
          if builtinNames.contains name then .error .unmodeled
          else .error .referenceError
    | .mapB items func =>
      -- map: falsy input gives [], arrays map with (item, index, array),
      -- strings map over their characters, everything else is iterated
      -- with for-in and the callback receives one [key, value] pair.
      if jsFalsy items then .ok (.val (.varr []), σ)
      else
        match items with
        | .varr xs =>
          match func with
          | .vfun f => do
            let (out, σ1) ← toVals (evalGo ctx fuel (.mapArr f xs 0 (.varr xs)) σ)
            .ok (.val (.varr out), σ1)
          | _ => .error .typeError
        | .vstr s =>
          match func with
          | .vfun f => do
            let (out, σ1) ← toVals (evalGo ctx fuel (.mapArr f (strChars s) 0 (.vstr s)) σ)
            .ok (.val (.varr out), σ1)
          | _ => .error .typeError
        | _ => do
          let (out, σ1) ← toVals (evalGo ctx fuel (.mapObj func (forInEntries σ items)) σ)
          .ok (.val (.varr out), σ1)
    | .mapArr f xs idx coll =>
      match xs with
      | [] => .ok (.vals [], σ)
      | x :: rest => do
        let (r, σ1) ← toVal (evalGo ctx fuel (.call f .vundef [x, .vnum (.num idx), coll]) σ)
        let (out, σ2) ← toVals (evalGo ctx fuel (.mapArr f rest (idx+1) coll) σ1)
        .ok (.vals (r :: out), σ2)
    | .mapObj func entries =>
      match entries with
      | [] => .ok (.vals [], σ)
      | (k, v) :: rest => do
        let (r, σ1) ← toVal (evalGo ctx fuel (.callValue func [.varr [.vstr k, v]]) σ)
        let (out, σ2) ← toVals (evalGo ctx fuel (.mapObj func rest) σ1)
        .ok (.vals (r :: out), σ2)
    | .everyL func xs target =>
      -- shared loop for every/some/none: stop at the first callback result
      -- whose isTruthy differs from target.
      match xs with
      | [] => .ok (.val (.vbool target), σ)
      | x :: rest => do
        let (r, σ1) ← toVal (evalGo ctx fuel (.callValue func [x]) σ)
        if isTruthy σ1 r = target then evalGo ctx fuel (.everyL func rest target) σ1
        else .ok (.val (.vbool (!target)), σ1)
    | .reduceB items func init =>
      if jsFalsy items then .ok (.val (jsNullish init), σ)
      else
        match items with
        | .varr xs =>
          match func with
          | .vfun f => evalGo ctx fuel (.reduceArr f xs 0 (jsNullish init) (.varr xs)) σ
          | _ => .error .typeError
        | .vstr s =>
          match func with
          | .vfun f => evalGo ctx fuel (.reduceArr f (strChars s) 0 (jsNullish init) (.vstr s)) σ
          | _ => .error .typeError
        | _ => evalGo ctx fuel (.reduceObj func (forInEntries σ items) (jsNullish init)) σ
    | .reduceArr f xs idx acc coll =>
      match xs with
      | [] => .ok (.val acc, σ)
      | x :: rest => do
        let (r, σ1) ← toVal (evalGo ctx fuel (.call f .vundef [acc, x, .vnum (.num idx), coll]) σ)
        evalGo ctx fuel (.reduceArr f rest (idx+1) r coll) σ1
    | .reduceObj func entries acc =>
      match entries with
      | [] => .ok (.val acc, σ)
      | (k, v) :: rest => do
        let (r, σ1) ← toVal (evalGo ctx fuel (.callValue func [acc, .varr [.vstr k, v]]) σ)
        evalGo ctx fuel (.reduceObj func rest r) σ1
    | .filterB items func =>
      if jsFalsy items then .ok (.val (.varr []), σ)
      else
        match items with
        | .varr xs =>
          match func with
          | .vfun f => do
            let (out, σ1) ← toVals (evalGo ctx fuel (.filterArr f xs 0 (.varr xs)) σ)
            .ok (.val (.varr out), σ1)
          | _ => .error .typeError
        | .vstr s =>
          match func with
          | .vfun f => do
            let (out, σ1) ← toVals (evalGo ctx fuel (.filterArr f (strChars s) 0 (.vstr s)) σ)
            .ok (.val (.varr out), σ1)
          | _ => .error .typeError
        | _ => do
          let (out, σ1) ← toFields (evalGo ctx fuel (.filterObj func (forInEntries σ items)) σ)
          .ok (.val (.vobj out), σ1)
    | .filterArr f xs idx coll =>
      match xs with
      | [] => .ok (.vals [], σ)
      | x :: rest => do
        let (r, σ1) ← toVal (evalGo ctx fuel (.call f .vundef [x, .vnum (.num idx), coll]) σ)
        let (out, σ2) ← toVals (evalGo ctx fuel (.filterArr f rest (idx+1) coll) σ1)
        .ok (.vals (if !jsFalsy r then x :: out else out), σ2)
    | .filterObj func entries =>
      match entries with
      | [] => .ok (.fields [], σ)
      | (k, v) :: rest => do
        let (r, σ1) ← toVal (evalGo ctx fuel (.callValue func [.varr [.vstr k, v]]) σ)
        let (out, σ2) ← toFields (evalGo ctx fuel (.filterObj func rest) σ1)
        .ok (.fields (if !jsFalsy r then aSet out k v else out), σ2)

/-- execIntern as a value-returning function. -/
def evalIntern (ctx : Ctx) (fuel : Nat) (code : Logic) (scope : Nat)
    (fnargs : List Value) (σ : Store) : Except Err (Value × Store) :=
  toVal (evalGo ctx fuel (.intern code scope fnargs) σ)

/-- The evaluation context execLogic builds when called without custom
operations: safeFnargs is null in Turing-complete mode, otherwise the
per-call copy of _SAFE_FNARGS (no names deleted, as there are no custom
operations). -/
def defaultCtx (atc : Bool) : Ctx :=
  ⟨atc, if atc then none else some SAFE_FNARGS⟩

/-- execLogic: the root scope is the input mapping (or a fresh empty
null-prototype object), the initial argument frame is [null, scope]. -/
def execLogicW (fuel : Nat) (code : Logic) (input : Option Frame) (atc : Bool) :
    Except Err (Value × Store) :=
  let root : Frame := input.getD ⟨[], none⟩
  evalIntern (defaultCtx atc) fuel code 0 [.vnull, .vref 0] [root]

/-- execLogic with a fuel budget ample for every program in this file. -/
def execLogic (code : Logic) (input : Option Frame) (atc : Bool) :
    Except Err Value :=
  (execLogicW 1000 code input atc).map Prod.fst


/-! ## Bytecode compiler (src/bytecode.ts, compileLogic) -/

/-- Bytecode cells.  The ByteCode array of the source holds instructions
(numeric enum members), operand literals, strings, booleans and null in one
flat array; jump-target patching writes plain numbers, so instructions and
numbers share one representation, exactly as in JavaScript. -/
inductive Cell where
  | cnum (n : JSNum)
  | cstr (s : String)
  | cbool (b : Bool)
  | cnull
deriving DecidableEq, Repr

/-- An instruction cell (the numeric value of the Instruction enum). -/
def ci (i : Int) : Cell := .cnum (.num i)

/-- The Instruction enum of src/bytecode.ts, by numeric value. -/
def iPush : Int := 0
def iPop : Int := 1
def iToNumber : Int := 2
def iToString : Int := 3
def iToBool : Int := 4
def iAdd : Int := 5
def iNumNegate : Int := 6
def iSub : Int := 7
def iMul : Int := 8
def iDiv : Int := 9
def iMod : Int := 10
def iBitAnd : Int := 11
def iBitOr : Int := 12
def iXOr : Int := 13
def iBitNegate : Int := 14
def iShiftLeft : Int := 15
def iShiftRight : Int := 16
def iBoolNegate : Int := 17
def iLt : Int := 18
def iGt : Int := 19
def iLte : Int := 20
def iGte : Int := 21
def iEq : Int := 22
def iNeq : Int := 23
def iSetVar : Int := 24
def iGetVar : Int := 25
def iGetArg : Int := 26
def iGetItem : Int := 27
def iJmp : Int := 28
def iJmpIfTrue : Int := 29
def iJmpIfFalse : Int := 30
def iJmpIfNull : Int := 31
def iJmpIfNotNull : Int := 32
def iAssertNotFunction : Int := 33
def iDeriveScope : Int := 34
def iNewScope : Int := 35
def iPopScope : Int := 36
def iClosure : Int := 37
def iMakeBound : Int := 38
def iCall : Int := 39
def iReturn : Int := 40
def iNewArray : Int := 41
def iArrayPush : Int := 42
def iNewObject : Int := 43
def iSetProp : Int := 44

/-- The cell a primitive logic value is pushed as (`Push, logic ?? null`);
composites never reach this point. -/
def pushLit : Logic → Cell
  | .lnull => .cnull
  | .lbool b => .cbool b
  | .lnum n => .cnum n
  | .lstr s => .cstr s
  | _ => .cnull

/-- A pending function body: the code positions whose cells must be patched
to the body's address, the raw parameter slice, and the body. -/
structure FnEntry where
  refs : List Nat
  args : List Logic
  body : Logic

/-- Compiler state: the flat output array and the pending function list. -/
structure CState where
  code : List Cell
  fns : List FnEntry

/-- Append cells to the output. -/
def emitC (st : CState) (cells : List Cell) : CState :=
  { st with code := st.code ++ cells }

/-- `code[i] = loc` (jump-target patching writes a number cell). -/
def patchAt (st : CState) (i : Nat) (loc : Nat) : CState :=
  { st with code := st.code.set i (Cell.cnum (.num loc)) }

/-- Does compilation emit an AssertNotFunction after this argument?
(`safeFnargs && !safeFnargs[op]?.[argind]` — there is no runtime value at
compile time, the type check itself is deferred to the instruction). -/
def sandboxAsserts (tbl? : Option (List (String × List Bool)))
    (op : String) (i : Nat) : Bool :=
  match tbl? with
  | none => false
  | some tbl => !safeAllows tbl op i

/-- Is a path key of var/arg a number or a string (the typeof switch of the
key-validation loops)? -/
def isPathKey : Logic → Bool
  | .lnum _ => true
  | .lstr _ => true
  | _ => false

/-- Emit the literal property-path chain of the var/arg cases: for every
key but the last `Push key, GetItem, JmpIfNull -1` collecting the patch
positions, then `Push lastKey, GetItem`, then patch every collected
position to the end (a correct for-of loop in the source here). -/
def emitPathLit (st : CState) (keys : List Logic) : CState :=
  let p := keys.dropLast.foldl
    (fun (p : CState × List Nat) k =>
      let s := emitC p.1 [ci iPush, pushLit k, ci iGetItem, ci iJmpIfNull]
      let r := s.code.length
      (emitC s [ci (-1)], p.2 ++ [r]))
    (st, [])
  let st2 := emitC p.1 [ci iPush, pushLit (keys.getLastD .lnull), ci iGetItem]
  let location := st2.code.length
  p.2.foldl (fun s r => patchAt s r location) st2

/-- The `arg` index validation: the first argument must be a number that is
non-negative and survives `|0` unchanged (a 32-bit non-negative integer). -/
def validArgIndex : Logic → Option Int
  | .lnum (.num q) =>
    if q < 0 then none
    else if JSNum.toInt32 (.num q) = q then some q else none
  | _ => none

/-- Requests of the compiler: compileIntern itself and each of its loops. -/
inductive CReq where
  | one (logic : Logic)
  | foldInstr (instr : Int) (rest : List Logic)
  | ifChain (r : List Logic) (refs : List Nat)
  | jmpChain (jmp : Int) (middles : List Logic) (refs : List Nat)
  | getChain (middles : List Logic) (refs : List Nat)
  | letChainC (letNode : Logic)
  | fnLoop (index : Nat)
  | objLoop (fields : List (String × Logic))
  | argsC (opName : String) (argind : Nat) (exprs : List Logic)
  | argsAtcC (exprs : List Logic)

set_option maxHeartbeats 3200000 in
/-- compileLogic's recursive descent (compileIntern, src/bytecode.ts lines
103-549), one function structurally recursive on fuel.  It keeps the
source's slips: the arity checks of if/and/or/??/partial read
`code.length` — the length of the *output array emitted so far*, not the
node's length — and the `if` patch loop iterates `for (const ref in refs)`
over the array's index keys 0..n-1 instead of its elements, so it writes
the join location into code[0..n-1] and leaves the collected jump operands
at -1. -/
def compileGo (cctx : Ctx) : Nat → CReq → CState → Except Err (CState × List Nat)
  | 0, _, _ => .error .outOfFuel
  | fuel+1, req, st =>
    match req with
    | .one logic =>
      match logic with
      | .lop (op :: args) =>
        if op.isStr "+" then
          match args with
          | [] => .ok (st, [])
          | [a] => do
            let (st1, _) ← compileGo cctx fuel (.one a) st
            .ok (emitC st1 [ci iToNumber], [])
          | a :: rest => do
            let (st1, _) ← compileGo cctx fuel (.one a) st
            compileGo cctx fuel (.foldInstr iAdd rest) st1
        else if op.isStr "-" then
          match args with
          | [a] => do
            let (st1, _) ← compileGo cctx fuel (.one a) st
            .ok (emitC st1 [ci iNumNegate], [])
          | [a, b] => do
            let (st1, _) ← compileGo cctx fuel (.one a) st
            let (st2, _) ← compileGo cctx fuel (.one b) st1
            .ok (emitC st2 [ci iSub], [])
          | _ => .error .syntaxError
        else if op.isStr "*" then
          match args with
          | [] => .ok (emitC st [ci iPush, Cell.cnum (.num 1)], [])
          | a :: rest => do
            let (st1, _) ← compileGo cctx fuel (.one a) st
            compileGo cctx fuel (.foldInstr iMul rest) st1
        else if op.isStr "/" then
          match args with
          | [a, b] => do
            let (st1, _) ← compileGo cctx fuel (.one a) st
            let (st2, _) ← compileGo cctx fuel (.one b) st1
            .ok (emitC st2 [ci iDiv], [])
          | _ => .error .syntaxError
        else if op.isStr "%" then
          match args with
          | [a, b] => do
            let (st1, _) ← compileGo cctx fuel (.one a) st
            let (st2, _) ← compileGo cctx fuel (.one b) st1
            .ok (emitC st2 [ci iMod], [])
          | _ => .error .syntaxError
        else if op.isStr "~" then
          match args with
          | [a] => do
            let (st1, _) ← compileGo cctx fuel (.one a) st
            .ok (emitC st1 [ci iBitNegate], [])
          | _ => .error .syntaxError
        else if op.isStr "^" then
          match args with
          | [a, b] => do
            let (st1, _) ← compileGo cctx fuel (.one a) st
            let (st2, _) ← compileGo cctx fuel (.one b) st1
            .ok (emitC st2 [ci iXOr], [])
          | _ => .error .syntaxError
        else if op.isStr "|" then
          match args with
          | [a, b] => do
            let (st1, _) ← compileGo cctx fuel (.one a) st
            let (st2, _) ← compileGo cctx fuel (.one b) st1
            .ok (emitC st2 [ci iBitOr], [])
          | _ => .error .syntaxError
        else if op.isStr "&" then
          match args with
          | [a, b] => do
            let (st1, _) ← compileGo cctx fuel (.one a) st
            let (st2, _) ← compileGo cctx fuel (.one b) st1
            .ok (emitC st2 [ci iBitAnd], [])
          | _ => .error .syntaxError
        else if op.isStr "!" then
          match args with
          | [a] => do
            let (st1, _) ← compileGo cctx fuel (.one a) st
            .ok (emitC st1 [ci iBoolNegate], [])
          | _ => .error .syntaxError
        else if op.isStr "!!" then
          match args with
          | [a] => do
            let (st1, _) ← compileGo cctx fuel (.one a) st
            .ok (emitC st1 [ci iToBool], [])
          | _ => .error .syntaxError
        else if op.isStr "if" then
          -- source slip kept: `if (code.length < 3)` tests the output.
          if st.code.length < 3 then .error .syntaxError
          else do
            let (st1, refs) ← compileGo cctx fuel (.ifChain args []) st
            let location := st1.code.length
            -- source slip kept: for-in over refs patches code[0..n-1].
            let st2 := (List.range refs.length).foldl
              (fun s i => patchAt s i location) st1
            .ok (st2, [])
        else if op.isStr "and" then
          if st.code.length < 2 then .error .syntaxError
          else do
            let (st1, refs) ← compileGo cctx fuel (.jmpChain iJmpIfFalse args.dropLast []) st
            let (st2, _) ← compileGo cctx fuel (.one (args.getLastD op)) st1
            let location := st2.code.length
            .ok (refs.foldl (fun s r => patchAt s r location) st2, [])
        else if op.isStr "or" then
          if st.code.length < 2 then .error .syntaxError
          else do
            let (st1, refs) ← compileGo cctx fuel (.jmpChain iJmpIfTrue args.dropLast []) st
            let (st2, _) ← compileGo cctx fuel (.one (args.getLastD op)) st1
            let location := st2.code.length
            .ok (refs.foldl (fun s r => patchAt s r location) st2, [])
        else if op.isStr "??" then
          if st.code.length < 2 then .error .syntaxError
          else do
            let (st1, refs) ← compileGo cctx fuel (.jmpChain iJmpIfNotNull args.dropLast []) st
            let (st2, _) ← compileGo cctx fuel (.one (args.getLastD op)) st1
            let location := st2.code.length
            .ok (refs.foldl (fun s r => patchAt s r location) st2, [])
        else if op.isStr "var" then
          match args with
          | [] => .error .syntaxError
          | arg1 :: keys =>
            match arg1 with
            | .lstr name =>
              if !isValidName name then .error .typeError
              else if !(keys.all isPathKey) then .error .typeError
              else
                let st1 := emitC st [ci iGetVar, Cell.cstr name]
                match keys with
                | [] => .ok (st1, [])
                | _ => .ok (emitPathLit st1 keys, [])
            | _ => .error .typeError
        else if op.isStr "arg" then
          match args with
          | [] => .error .syntaxError
          | arg1 :: keys =>
            match validArgIndex arg1 with
            | some n =>
              if !(keys.all isPathKey) then .error .typeError
              else
                let st1 := emitC st [ci iGetArg, Cell.cnum (.num n)]
                match keys with
                | [] => .ok (st1, [])
                | _ => .ok (emitPathLit st1 keys, [])
            | none => .error .typeError
        else if op.isStr "get" then
          match args with
          | [] => .error .syntaxError
          | obj :: keys => do
            let (st1, _) ← compileGo cctx fuel (.one obj) st
            match keys with
            | [] => .ok (st1, [])
            | _ => do
              let (st2, refs) ← compileGo cctx fuel (.getChain keys.dropLast []) st1
              -- the last key is pushed as a literal even here.
              match keys.getLastD .lnull with
              | .lnum n =>
                let st3 := emitC st2 [ci iPush, Cell.cnum n, ci iGetItem]
                let location := st3.code.length
                .ok (refs.foldl (fun s r => patchAt s r location) st3, [])
              | .lstr s3 =>
                let st3 := emitC st2 [ci iPush, Cell.cstr s3, ci iGetItem]
                let location := st3.code.length
                .ok (refs.foldl (fun s r => patchAt s r location) st3, [])
              | _ => .error .unmodeled
        else if op.isStr "let" then
          match args with
          | [a1, a2] => do
            let (st1, _) ← compileGo cctx fuel (.one a1) st
            let (st2, _) ← compileGo cctx fuel (.one a2) (emitC st1 [ci iNewScope])
            .ok (emitC st2 [ci iPopScope], [])
          | [_, _, _] => do
            let (st1, _) ← compileGo cctx fuel (.letChainC (Logic.lop (op :: args))) (emitC st [ci iDeriveScope])
            .ok (emitC st1 [ci iPopScope], [])
          | _ => .error .syntaxError
        else if op.isStr "fn" then
          let st1 := emitC st [ci iClosure]
          let entry : FnEntry :=
            { refs := [st1.code.length]
              args := args.dropLast
              body := args.getLastD .lnull }
          let st2 := { st1 with fns := st1.fns ++ [entry] }
          .ok (emitC st2 [ci (-1)], [])
        else if op.isStr "partial" then
          -- source slip kept: `if (code.length < 2)` tests the output.
          if st.code.length < 2 then .error .syntaxError
          else
            match args with
            | [] => .error .syntaxError
            | a1 :: boundExprs =>
              match a1 with
              | .lop _ =>
                if !cctx.atc then .error .typeError
                else do
                  let (st1, _) ← compileGo cctx fuel (.one a1) st
                  let (st2, _) ← compileGo cctx fuel (.argsAtcC boundExprs) st1
                  .ok (emitC st2 [ci iMakeBound, Cell.cnum (.num boundExprs.length)], [])
              | .lstr s =>
                if builtinNames.contains s then do
                  let st1 := emitC st [ci iPush, Cell.cstr s]
                  let (st2, _) ← compileGo cctx fuel (.argsC "partial" 0 boundExprs) st1
                  .ok (emitC st2 [ci iMakeBound, Cell.cnum (.num boundExprs.length)], [])
                else .error .referenceError
              | _ => .error .syntaxError
        else
          -- default dispatch: a function op is unrepresentable in Logic,
          -- an array op requires Turing-complete mode and compiles only
          -- the operator (the source forgets the arguments), a known name
          -- compiles arguments with AssertNotFunction at unsafe positions.
          match op with
          | .lop _ =>
            if !cctx.atc then .error .typeError
            else do
              let (st1, _) ← compileGo cctx fuel (.one op) st
              .ok (emitC st1 [ci iCall, Cell.cnum (.num args.length)], [])
          | .lstr s =>
            if builtinNames.contains s then do
              let (st1, _) ← compileGo cctx fuel (.argsC s 0 args) st
              .ok (emitC st1 [ci iPush, Cell.cstr s, ci iCall, Cell.cnum (.num args.length)], [])
            else .error .referenceError
          | _ => .error .referenceError
      | .lop [] => .error .referenceError
      | .lobj fields =>
        compileGo cctx fuel (.objLoop fields) (emitC st [ci iNewObject])
      | .lnull => .ok (emitC st [ci iPush, Cell.cnull], [])
      | .lbool b => .ok (emitC st [ci iPush, Cell.cbool b], [])
      | .lnum n => .ok (emitC st [ci iPush, Cell.cnum n], [])
      | .lstr s => .ok (emitC st [ci iPush, Cell.cstr s], [])
    | .foldInstr instr rest =>
      match rest with
      | [] => .ok (st, [])
      | e :: es => do
        let (st1, _) ← compileGo cctx fuel (.one e) st
        compileGo cctx fuel (.foldInstr instr es) (emitC st1 [ci instr])
    | .ifChain r refs =>
      match r with
      | c :: v :: rest => do
        let (st1, _) ← compileGo cctx fuel (.one c) st
        let st2 := emitC st1 [ci iJmpIfFalse]
        let ref := st2.code.length
        let st3 := emitC st2 [ci (-1)]
        -- (the `index >= logic.length` re-check cannot fire here: the
        -- paired value exists)
        let (st4, _) ← compileGo cctx fuel (.one v) st3
        let st5 := emitC st4 [ci iJmp]
        let refs1 := refs ++ [st5.code.length]
        let st6 := emitC st5 [ci (-1)]
        let st7 := patchAt st6 ref st6.code.length
        let st8 := emitC st7 [ci iPop]
        match rest with
        | [] => .ok (emitC st8 [ci iPush, Cell.cnull], refs1)
        | [e] => do
          let (st9, _) ← compileGo cctx fuel (.one e) st8
          .ok (st9, refs1)
        | _ => compileGo cctx fuel (.ifChain rest refs1) st8
      | _ => .ok (st, refs)
    | .jmpChain jmp middles refs =>
      match middles with
      | [] => .ok (st, refs)
      | m :: rest => do
        let (st1, _) ← compileGo cctx fuel (.one m) st
        let st2 := emitC st1 [ci jmp]
        let ref := st2.code.length
        compileGo cctx fuel (.jmpChain jmp rest (refs ++ [ref])) (emitC st2 [ci (-1)])
    | .getChain middles refs =>
      match middles with
      | [] => .ok (st, refs)
      | k :: rest => do
        let (st1, _) ← compileGo cctx fuel (.one k) st
        let st2 := emitC st1 [ci iGetItem, ci iJmpIfNull]
        let ref := st2.code.length
        compileGo cctx fuel (.getChain rest (refs ++ [ref])) (emitC st2 [ci (-1)])
    | .letChainC letNode =>
      match letNode with
      | .lop [_, vn, init, child] =>
        match vn with
        | .lstr name =>
          if !isValidName name then .error .syntaxError
          else do
            let (st1, _) ← compileGo cctx fuel (.one init) st
            let st2 := emitC st1 [ci iSetVar, Cell.cstr name]
            match child with
            | .lop citems =>
              if citems.length = 4 && (citems.getD 0 Logic.lnull).isStr "let" then
                compileGo cctx fuel (.letChainC child) st2
              else compileGo cctx fuel (.one child) st2
            | _ => compileGo cctx fuel (.one child) st2
        | _ => .error .syntaxError
      | _ => .error .unmodeled
    | .fnLoop index =>
      match st.fns.get? index with
      | none => .ok (st, [])
      | some fn => do
        let st1 := fn.refs.foldl (fun s r => patchAt s r st.code.length) st
        let (st2, _) ← compileGo cctx fuel (.one fn.body) st1
        compileGo cctx fuel (.fnLoop (index + 1)) (emitC st2 [ci iReturn])
    | .objLoop fields =>
      match fields with
      | [] => .ok (st, [])
      | (k, e) :: rest => do
        let (st1, _) ← compileGo cctx fuel (.one e) (emitC st [ci iPush, Cell.cstr k])
        compileGo cctx fuel (.objLoop rest) (emitC st1 [ci iSetProp])
    | .argsC opName argind exprs =>
      match exprs with
      | [] => .ok (st, [])
      | e :: rest => do
        let (st1, _) ← compileGo cctx fuel (.one e) st
        let st2 := if sandboxAsserts cctx.safeTbl opName argind
          then emitC st1 [ci iAssertNotFunction] else st1
        compileGo cctx fuel (.argsC opName (argind + 1) rest) st2
    | .argsAtcC exprs =>
      match exprs with
      | [] => .ok (st, [])
      | e :: rest => do
        let (st1, _) ← compileGo cctx fuel (.one e) st
        let st2 := if !cctx.atc then emitC st1 [ci iAssertNotFunction] else st1
        compileGo cctx fuel (.argsAtcC rest) st2

/-- compileLogic: compile the program, terminate with Return, then append
the pending function bodies (each patched to its address and terminated
with Return); without custom operations the registry is _BUILTINS and the
safety table the per-call copy of _SAFE_FNARGS. -/
def compileLogicW (fuel : Nat) (logic : Logic) (atc : Bool) :
    Except Err (List Cell) := do
  let cctx := defaultCtx atc
  let (st1, _) ← compileGo cctx fuel (.one logic) ⟨[], []⟩
  let (st2, _) ← compileGo cctx fuel (.fnLoop 0) (emitC st1 [ci iReturn])
  .ok st2.code

/-- compileLogic with a fuel budget ample for every program in this file. -/
def compileLogic (logic : Logic) (atc : Bool) : Except Err (List Cell) :=
  compileLogicW 1000 logic atc

/-! ## Virtual machine (src/bytecode.ts, execByteCode) -/

/-- VM state: the shared operand/call stack, the four registers, the
current scope object and the frame store.  stackPtr may go negative after
the final Return exactly as in the source. -/
structure VMSt where
  stack : List Value
  stackPtr : Int
  instrPtr : Int
  framePtr : Int
  argc : Int
  scope : Nat
  store : Store

/-- `stack[i]` (reads out of range or at a negative index give undefined,
like unset JavaScript array slots). -/
def stackGet (xs : List Value) (i : Int) : Value :=
  if i < 0 then .vundef else xs.getD i.toNat (.vundef)

/-- `stack[i] = v`, padding holes with undefined.  A negative index would
be a named property invisible to the integer reads; no execution in this
file ever writes one, and such writes are dropped. -/
def stackSet (xs : List Value) (i : Int) (v : Value) : List Value :=
  if i < 0 then xs
  else
    let n := i.toNat
    if n < xs.length then xs.set n v
    else xs ++ List.replicate (n - xs.length) .vundef ++ [v]

/-- `code[i]` (undefined when out of range, like JavaScript). -/
def cellAt (code : List Cell) (i : Int) : Option Cell :=
  if i < 0 then none else code.get? i.toNat

/-- The value a Push operand cell denotes (undefined when absent). -/
def cellToValue : Option Cell → Value
  | some (.cnum n) => .vnum n
  | some (.cstr s) => .vstr s
  | some (.cbool b) => .vbool b
  | some .cnull => .vnull
  | none => (.vundef)

/-- A cell coerced to a JavaScript property key (SetVar/GetVar/GetItem
operands); a missing cell is undefined, whose key is "undefined". -/
def cellKey : Option Cell → Option String
  | some (.cstr s) => some s
  | some (.cnum n) => numToString? n
  | some (.cbool b) => some (if b then "true" else "false")
  | some .cnull => some "null"
  | none => some "undefined"

/-- A cell read `as number` (jump targets, argument counts); anything that
is not a finite modeled number stops the model. -/
def cellInt : Option Cell → Option Int
  | some (.cnum (.num k)) => some k
  | _ => none

/-- String rendering for the ToString instruction (toString of
src/utils.ts: JSON.stringify for objects, String(...) otherwise); composite
values are not modeled. -/
def jsToString? : Value → Option String
  | .vstr s => some s
  | .vnum n => numToString? n
  | .vbool b => some (if b then "true" else "false")
  | .vnull => some "null"
  | .vundef => some "undefined"
  | _ => none

/-- Requests of the VM: one dispatch-loop activation (`run`, ending at the
first executed Return), or the invocation of a function value from the
Call/Partial machinery. -/
inductive VReq where
  | run
  | callF (f : Fn) (args : List Value)

set_option maxHeartbeats 3200000 in
/-- execByteCode's interpreter loop (src/bytecode.ts lines 567-925),
structurally recursive on fuel.  `run` executes instructions until the
first Return of this activation; invoking a VM closure saves
{argc, instrPtr, framePtr} on the data stack, re-enters the loop at the
closure's body and pops the result, exactly as the source's nested
execIntern does.  Built-ins reached from compiled code are the pure subset
(the higher-order ones would re-enter the VM through a closure; no theorem
below runs one). -/
def vmGo (code : List Cell) : Nat → VReq → VMSt → Except Err (Value × VMSt)
  | 0, _, _ => .error .outOfFuel
  | fuel+1, .callF f args, st =>
    match f with
    | .vmClos jmp =>
      -- op(...args) on the pushed closure: save the caller's registers on
      -- the stack, point framePtr above them, enter the body, then return
      -- stack[stackPtr--].
      let s1 := stackSet st.stack (st.stackPtr + 1) (.vnum (.num st.argc))
      let s2 := stackSet s1 (st.stackPtr + 2) (.vnum (.num st.instrPtr))
      let s3 := stackSet s2 (st.stackPtr + 3) (.vnum (.num st.framePtr))
      let sp : Int := st.stackPtr + 3
      let fp := sp + 1
      let s4 := stackSet s3 (sp + 1) (.vundef)
      let s5 := (List.range args.length).foldl
        (fun s (j : Nat) => stackSet s (sp + 2 + Int.ofNat j) (args.getD j .vundef)) s4
      let st1 : VMSt :=
        { stack := s5
          stackPtr := sp + 1 + (args.length : Int)
          instrPtr := jmp
          framePtr := fp
          argc := args.length + 1
          scope := st.scope
          store := st.store }
      do
        let (_, st2) ← vmGo code fuel .run st1
        let ret := stackGet st2.stack st2.stackPtr
        .ok (ret, { st2 with stackPtr := st2.stackPtr - 1 })
    | .builtin name =>
      match applyPure st.store name args with
      | some r => do
        let v ← r
        .ok (v, st)
      | none =>
        if builtinNames.contains name then .error .unmodeled
        else .error .referenceError
    | .bound g boundArgs => vmGo code fuel (.callF g (boundArgs ++ args)) st
    | _ => .error .unmodeled
  | fuel+1, .run, st =>
    match cellAt code st.instrPtr with
    | some (.cnum (.num k)) =>
      let st := { st with instrPtr := st.instrPtr + 1 }
      if k = iPush then
        let v := cellToValue (cellAt code st.instrPtr)
        vmGo code fuel .run { st with
          instrPtr := st.instrPtr + 1
          stackPtr := st.stackPtr + 1
          stack := stackSet st.stack (st.stackPtr + 1) v }
      else if k = iPop then
        vmGo code fuel .run { st with stackPtr := st.stackPtr - 1 }
      else if k = iToNumber then do
        let n ← toNumber (stackGet st.stack st.stackPtr)
        vmGo code fuel .run { st with
          stack := stackSet st.stack st.stackPtr (.vnum n) }
      else if k = iToString then
        match jsToString? (stackGet st.stack st.stackPtr) with
        | some s => vmGo code fuel .run { st with stack := stackSet st.stack st.stackPtr (.vstr s) }
        | none => .error .unmodeled
      else if k = iToBool then
        vmGo code fuel .run { st with
          stack := stackSet st.stack st.stackPtr (.vbool (isTruthy st.store (stackGet st.stack st.stackPtr))) }
      else if k = iAdd then do
        -- `const value = +stack[stackPtr --]`: the top is coerced first.
        let value ← toNumber (stackGet st.stack st.stackPtr)
        let sp : Int := st.stackPtr - 1
        let x ← toNumber (stackGet st.stack sp)
        vmGo code fuel .run { st with
          stackPtr := sp
          stack := stackSet st.stack sp (.vnum (JSNum.add x value)) }
      else if k = iNumNegate then do
        let n ← toNumber (stackGet st.stack st.stackPtr)
        vmGo code fuel .run { st with
          stack := stackSet st.stack st.stackPtr (.vnum (JSNum.negate n)) }
      else if k = iSub then do
        -- compound assignment: the slot below the top is coerced first.
        let value0 := stackGet st.stack st.stackPtr
        let sp : Int := st.stackPtr - 1
        let x ← toNumber (stackGet st.stack sp)
        let y ← toNumber value0
        vmGo code fuel .run { st with
          stackPtr := sp
          stack := stackSet st.stack sp (.vnum (JSNum.sub x y)) }
      else if k = iMul then do
        -- compound assignment: the slot below the top is coerced first.
        let value0 := stackGet st.stack st.stackPtr
        let sp : Int := st.stackPtr - 1
        let x ← toNumber (stackGet st.stack sp)
        let y ← toNumber value0
        vmGo code fuel .run { st with
          stackPtr := sp
          stack := stackSet st.stack sp (.vnum (JSNum.mul x y)) }
      else if k = iDiv then do
        -- compound assignment: the slot below the top is coerced first.
        let value0 := stackGet st.stack st.stackPtr
        let sp : Int := st.stackPtr - 1
        let x ← toNumber (stackGet st.stack sp)
        let y ← toNumber value0
        vmGo code fuel .run { st with
          stackPtr := sp
          stack := stackSet st.stack sp (.vnum (JSNum.div x y)) }
      else if k = iMod then do
        -- compound assignment: the slot below the top is coerced first.
        let value0 := stackGet st.stack st.stackPtr
        let sp : Int := st.stackPtr - 1
        let x ← toNumber (stackGet st.stack sp)
        let y ← toNumber value0
        vmGo code fuel .run { st with
          stackPtr := sp
          stack := stackSet st.stack sp (.vnum (JSNum.mod x y)) }
      else if k = iBitAnd then do
        let value0 := stackGet st.stack st.stackPtr
        let sp : Int := st.stackPtr - 1
        let x ← toNumber (stackGet st.stack sp)
        let y ← toNumber value0
        vmGo code fuel .run { st with
          stackPtr := sp
          stack := stackSet st.stack sp (.vnum (.num (bitop32 Nat.land (JSNum.toInt32 x) (JSNum.toInt32 y)))) }
      else if k = iBitOr then do
        let value0 := stackGet st.stack st.stackPtr
        let sp : Int := st.stackPtr - 1
        let x ← toNumber (stackGet st.stack sp)
        let y ← toNumber value0
        vmGo code fuel .run { st with
          stackPtr := sp
          stack := stackSet st.stack sp (.vnum (.num (bitop32 Nat.lor (JSNum.toInt32 x) (JSNum.toInt32 y)))) }
      else if k = iXOr then do
        let value0 := stackGet st.stack st.stackPtr
        let sp : Int := st.stackPtr - 1
        let x ← toNumber (stackGet st.stack sp)
        let y ← toNumber value0
        vmGo code fuel .run { st with
          stackPtr := sp
          stack := stackSet st.stack sp (.vnum (.num (bitop32 Nat.xor (JSNum.toInt32 x) (JSNum.toInt32 y)))) }
      else if k = iBitNegate then do
        let n ← toNumber (stackGet st.stack st.stackPtr)
        vmGo code fuel .run { st with
          stack := stackSet st.stack st.stackPtr (.vnum (.num (-(JSNum.toInt32 n) - 1))) }
      else if k = iShiftLeft then do
        let value0 := stackGet st.stack st.stackPtr
        let sp : Int := st.stackPtr - 1
        let x ← toNumber (stackGet st.stack sp)
        let y ← toNumber value0
        vmGo code fuel .run { st with
          stackPtr := sp
          stack := stackSet st.stack sp (.vnum (.num (wrap32 ((JSNum.toInt32 x) * (2 ^ JSNum.shiftCount y))))) }
      else if k = iShiftRight then do
        -- `stack[sp] >>= value`: ToNumeric runs on the slot below first,
        -- then on the popped value; a scope object there throws TypeError.
        let value0 := stackGet st.stack st.stackPtr
        let sp : Int := st.stackPtr - 1
        let x ← toNumber (stackGet st.stack sp)
        let y ← toNumber value0
        vmGo code fuel .run { st with
          stackPtr := sp
          stack := stackSet st.stack sp (.vnum (.num (Int.fdiv (JSNum.toInt32 x) (2 ^ JSNum.shiftCount y)))) }
      else if k = iBoolNegate then
        vmGo code fuel .run { st with
          stack := stackSet st.stack st.stackPtr (.vbool (!isTruthy st.store (stackGet st.stack st.stackPtr))) }
      else if k = iLt then do
        let value := stackGet st.stack st.stackPtr
        let sp : Int := st.stackPtr - 1
        let b ← jsLtV (stackGet st.stack sp) value
        vmGo code fuel .run { st with
          stackPtr := sp
          stack := stackSet st.stack sp (.vbool b) }
      else if k = iGt then do
        let value := stackGet st.stack st.stackPtr
        let sp : Int := st.stackPtr - 1
        let b ← jsGtV (stackGet st.stack sp) value
        vmGo code fuel .run { st with
          stackPtr := sp
          stack := stackSet st.stack sp (.vbool b) }
      else if k = iLte then do
        let value := stackGet st.stack st.stackPtr
        let sp : Int := st.stackPtr - 1
        let b ← jsLeV (stackGet st.stack sp) value
        vmGo code fuel .run { st with
          stackPtr := sp
          stack := stackSet st.stack sp (.vbool b) }
      else if k = iGte then do
        let value := stackGet st.stack st.stackPtr
        let sp : Int := st.stackPtr - 1
        let b ← jsGeV (stackGet st.stack sp) value
        vmGo code fuel .run { st with
          stackPtr := sp
          stack := stackSet st.stack sp (.vbool b) }
      else if k = iEq then do
        let value := stackGet st.stack st.stackPtr
        let sp : Int := st.stackPtr - 1
        let b ← strictEqV (stackGet st.stack sp) value
        vmGo code fuel .run { st with
          stackPtr := sp
          stack := stackSet st.stack sp (.vbool b) }
      else if k = iNeq then do
        let value := stackGet st.stack st.stackPtr
        let sp : Int := st.stackPtr - 1
        let b ← strictEqV (stackGet st.stack sp) value
        vmGo code fuel .run { st with
          stackPtr := sp
          stack := stackSet st.stack sp (.vbool (!b)) }
      else if k = iSetVar then
        match cellKey (cellAt code st.instrPtr) with
        | some name =>
          let v := stackGet st.stack st.stackPtr
          vmGo code fuel .run { st with
            instrPtr := st.instrPtr + 1
            stackPtr := st.stackPtr - 1
            store := storeSetVar st.store st.scope name v }
        | none => .error .unmodeled
      else if k = iGetVar then
        match cellKey (cellAt code st.instrPtr) with
        | some name =>
          vmGo code fuel .run { st with
            instrPtr := st.instrPtr + 1
            stackPtr := st.stackPtr + 1
            stack := stackSet st.stack (st.stackPtr + 1) ((scopeGet st.store st.scope name).getD .vundef) }
        | none => .error .unmodeled
      else if k = iGetArg then
        match cellInt (cellAt code st.instrPtr) with
        | some argind =>
          let v := if argind > st.argc then Value.vnull
            else stackGet st.stack (st.framePtr + argind)
          vmGo code fuel .run { st with
            instrPtr := st.instrPtr + 1
            stackPtr := st.stackPtr + 1
            stack := stackSet st.stack (st.stackPtr + 1) v }
        | none => .error .unmodeled
      else if k = iGetItem then
        match cellKey (cellAt code st.instrPtr) with
        | some key => do
          let obj := stackGet st.stack st.stackPtr
          let r ← ownProp st.store obj key
          let v := match r with | some w => w | none => Value.vnull
          vmGo code fuel .run { st with
            instrPtr := st.instrPtr + 1
            stack := stackSet st.stack st.stackPtr v }
        | none => .error .unmodeled
      else if k = iJmp then
        match cellInt (cellAt code st.instrPtr) with
        | some target => vmGo code fuel .run { st with instrPtr := target }
        | none => .error .referenceError
      else if k = iJmpIfTrue then
        if isTruthy st.store (stackGet st.stack st.stackPtr) then
          match cellInt (cellAt code st.instrPtr) with
          | some target => vmGo code fuel .run { st with instrPtr := target }
          | none => .error .referenceError
        else
          vmGo code fuel .run { st with instrPtr := st.instrPtr + 1, stackPtr := st.stackPtr - 1 }
      else if k = iJmpIfFalse then
        if !isTruthy st.store (stackGet st.stack st.stackPtr) then
          match cellInt (cellAt code st.instrPtr) with
          | some target => vmGo code fuel .run { st with instrPtr := target }
          | none => .error .referenceError
        else
          vmGo code fuel .run { st with instrPtr := st.instrPtr + 1, stackPtr := st.stackPtr - 1 }
      else if k = iJmpIfNull then
        if isNullish (stackGet st.stack st.stackPtr) then
          match cellInt (cellAt code st.instrPtr) with
          | some target => vmGo code fuel .run { st with instrPtr := target }
          | none => .error .referenceError
        else
          vmGo code fuel .run { st with instrPtr := st.instrPtr + 1, stackPtr := st.stackPtr - 1 }
      else if k = iJmpIfNotNull then
        if !isNullish (stackGet st.stack st.stackPtr) then
          match cellInt (cellAt code st.instrPtr) with
          | some target => vmGo code fuel .run { st with instrPtr := target }
          | none => .error .referenceError
        else
          vmGo code fuel .run { st with instrPtr := st.instrPtr + 1, stackPtr := st.stackPtr - 1 }
      else if k = iAssertNotFunction then
        if isFnValue (stackGet st.stack st.stackPtr) then .error .typeError
        else vmGo code fuel .run st
      else if k = iDeriveScope then
        let (ns, store1) := alloc st.store ⟨[], some st.scope⟩
        vmGo code fuel .run { st with
          stackPtr := st.stackPtr + 1
          stack := stackSet st.stack (st.stackPtr + 1) (.vref st.scope)
          scope := ns
          store := store1 }
      else if k = iNewScope then
        let vars := stackGet st.stack st.stackPtr
        let st := { st with stackPtr := st.stackPtr - 1 }
        if jsFalsy vars then .error .typeError
        else
          let next := fun (ns : Nat) (store1 : Store) =>
            vmGo code fuel .run { st with
              stackPtr := st.stackPtr + 1
              stack := stackSet st.stack (st.stackPtr + 1) (.vref st.scope)
              scope := ns
              store := store1 }
          match vars with
          | .vref a =>
            if (getFrame st.store a).parent = none then next a st.store
            else
              let (ns, store1) := alloc st.store ⟨(getFrame st.store a).bindings, none⟩
              next ns store1
          | .vobj fields =>
            let (ns, store1) := alloc st.store ⟨fields, none⟩
            next ns store1
          | .varr xs =>
            let (ns, store1) := alloc st.store ⟨arrEntries xs, none⟩
            next ns store1
          | _ => .error .typeError
      else if k = iPopScope then
        let value := stackGet st.stack st.stackPtr
        let sp : Int := st.stackPtr - 1
        match stackGet st.stack sp with
        | .vref a =>
          vmGo code fuel .run { st with
            stackPtr := sp
            scope := a
            stack := stackSet st.stack sp value }
        | _ => .error .unmodeled
      else if k = iClosure then
        match cellInt (cellAt code st.instrPtr) with
        | some jmp =>
          vmGo code fuel .run { st with
            instrPtr := st.instrPtr + 1
            stackPtr := st.stackPtr + 1
            stack := stackSet st.stack (st.stackPtr + 1) (.vfun (.vmClos jmp)) }
        | none => .error .unmodeled
      else if k = iCall then
        match cellInt (cellAt code st.instrPtr) with
        | some argcN =>
          if argcN < 0 || st.stackPtr - argcN < 0 then .error .unmodeled
          else do
            let op := stackGet st.stack st.stackPtr
            let st := { st with instrPtr := st.instrPtr + 1 }
            let args := (List.range argcN.toNat).map
              (fun j => stackGet st.stack (st.stackPtr - argcN + j))
            let (result, st1) ←
              match op with
              | .vfun f => vmGo code fuel (.callF f args) st
              | .vstr s =>
                if builtinNames.contains s then vmGo code fuel (.callF (.builtin s) args) st
                else .error .referenceError
              | _ => .error .referenceError
            let sp : Int := st1.stackPtr - argcN
            vmGo code fuel .run { st1 with
              stackPtr := sp
              stack := stackSet st1.stack sp result }
        | none => .error .unmodeled
      else if k = iReturn then
        let result := stackGet st.stack st.stackPtr
        let sp : Int := st.stackPtr - st.argc - 3
        if sp ≥ 0 then
          match stackGet st.stack (st.framePtr - 3),
                stackGet st.stack (st.framePtr - 2),
                stackGet st.stack (st.framePtr - 1) with
          | .vnum (.num argc1), .vnum (.num ip1), .vnum (.num fp1) =>
            .ok (result, { st with
              stackPtr := sp
              argc := argc1
              instrPtr := ip1
              framePtr := fp1
              stack := stackSet st.stack sp result })
          | _, _, _ => .error .unmodeled
        else
          .ok (result, { st with stackPtr := sp })
      else if k = iMakeBound then
        match cellInt (cellAt code st.instrPtr) with
        | some argcN =>
          if argcN < 0 || st.stackPtr - argcN < 0 then .error .unmodeled
          else
            let st := { st with instrPtr := st.instrPtr + 1 }
            let sp : Int := st.stackPtr - argcN
            let op := stackGet st.stack sp
            let funcR : Except Err Fn :=
              match op with
              | .vfun f => .ok f
              | .vstr s =>
                if builtinNames.contains s then .ok (.builtin s)
                else .error .referenceError
              | _ => .error .syntaxError
            match funcR with
            | .error e => .error e
            | .ok func =>
              let v :=
                if argcN > 0 then
                  Value.vfun (.bound func ((List.range argcN.toNat).map
                    (fun j => stackGet st.stack (sp + 1 + j))))
                else Value.vfun func
              vmGo code fuel .run { st with
                stackPtr := sp
                stack := stackSet st.stack sp v }
        | none => .error .unmodeled
      else if k = iNewArray then
        vmGo code fuel .run { st with
          stackPtr := st.stackPtr + 1
          stack := stackSet st.stack (st.stackPtr + 1) (.varr []) }
      else if k = iArrayPush then
        match stackGet st.stack (st.stackPtr - 1) with
        | .varr xs =>
          vmGo code fuel .run { st with
            stackPtr := st.stackPtr - 1
            stack := stackSet st.stack (st.stackPtr - 1) (.varr (xs ++ [stackGet st.stack st.stackPtr])) }
        | _ => .error .unmodeled
      else if k = iNewObject then
        vmGo code fuel .run { st with
          stackPtr := st.stackPtr + 1
          stack := stackSet st.stack (st.stackPtr + 1) (.vobj []) }
      else if k = iSetProp then
        match stackGet st.stack (st.stackPtr - 2),
              valueToKey (stackGet st.stack (st.stackPtr - 1)) with
        | .vobj fields, some key =>
          vmGo code fuel .run { st with
            stackPtr := st.stackPtr - 2
            stack := stackSet st.stack (st.stackPtr - 2)
              (.vobj (aSet fields key (stackGet st.stack st.stackPtr))) }
        | _, _ => .error .unmodeled
      else .error .referenceError
    | _ => .error .referenceError

/-- execByteCode: initial state per the source — stack [null, scope],
stackPtr 1, all registers at their initial values, the input mapping (or a
fresh empty null-prototype object) as frame 0. -/
def execByteCodeW (fuel : Nat) (code : List Cell) (input : Option Frame) :
    Except Err (Value × VMSt) :=
  let root : Frame := input.getD ⟨[], none⟩
  vmGo code fuel .run
    { stack := [.vnull, .vref 0]
      stackPtr := 1
      instrPtr := 0
      framePtr := 0
      argc := 2
      scope := 0
      store := [root] }

/-- execByteCode with a fuel budget ample for every program in this file. -/
def execByteCode (code : List Cell) (input : Option Frame) : Except Err Value :=
  (execByteCodeW 10000 code input).map Prod.fst

/-! ## Parser (src/parser.ts, parseLogic) -/

/-- The token classes of the tokenizer's regular expression, one per
capture group: whitespace, comment, string literal, numeric literal, bare
identifier, signed Infinity, operator characters, $N argument reference,
and single punctuation. -/
inductive Tok where
  | ws
  | comment
  | str (s : String)
  | num (n : JSNum)
  | ident (s : String)
  | infTok (neg : Bool)
  | opTok (s : String)
  | argRef (n : Nat)
  | punct (c : Char)

/-- \s of the regex (the ASCII part; no source in this file contains
non-ASCII whitespace). -/
def isWsChar (c : Char) : Bool :=
  c = ' ' || c = '\t' || c = '\n' || c = '\r' || c = '\x0b' || c = '\x0c'

/-- A word character ([_a-zA-Z0-9]) for the \b boundary tests. -/
def isWordChar (c : Char) : Bool := c.isAlpha || c.isDigit || c = '_'

/-- The operator-character class [-+<>=!?*\/%|&~^]. -/
def isOpChar (c : Char) : Bool :=
  c = '-' || c = '+' || c = '<' || c = '>' || c = '=' || c = '!' ||
  c = '?' || c = '*' || c = '/' || c = '%' || c = '|' || c = '&' ||
  c = '~' || c = '^'

/-- The punctuation class [(){}:\[\]]. -/
def isPunctChar (c : Char) : Bool :=
  c = '(' || c = ')' || c = '{' || c = '}' || c = ':' || c = '[' || c = ']'

/-- One backslash escape of the string literal grammar (ESC_MAP plus the
\uXXXX form). -/
def escChar : Char → Option Char
  | 'b' => some '\x08'
  | 'f' => some '\x0c'
  | 'n' => some '\n'
  | 'r' => some '\r'
  | 't' => some '\t'
  | '"' => some '"'
  | '\\' => some '\\'
  | '/' => some '/'
  | _ => none

/-- Hex digit value (code points: 0-9 are 48-57, a-f 97-102, A-F 65-70). -/
def hexVal (c : Char) : Option Nat :=
  let n := c.toNat
  if 48 ≤ n && n ≤ 57 then some (n - 48)
  else if 97 ≤ n && n ≤ 102 then some (n - 87)
  else if 65 ≤ n && n ≤ 70 then some (n - 55)
  else none

/-- The inside of a string literal: plain characters except quote and
backslash, the eight named escapes, and \uXXXX.  Returns the unescaped
characters and the count of source characters consumed including the
closing quote; none when the token regex cannot match (unterminated or
illegal escape). -/
def strBody : List Char → Option (List Char × Nat)
  | [] => none
  | '"' :: _ => some ([], 1)
  | '\\' :: e :: rest =>
    if e = 'u' then
      match rest with
      | h1 :: h2 :: h3 :: h4 :: rest2 =>
        match hexVal h1, hexVal h2, hexVal h3, hexVal h4 with
        | some a, some b, some c, some d =>
          match strBody rest2 with
          | some (cs, n) =>
            some (Char.ofNat (((a * 16 + b) * 16 + c) * 16 + d) :: cs, n + 6)
          | none => none
        | _, _, _, _ => none
      | _ => none
    else
      match escChar e with
      | some c =>
        match strBody rest with
        | some (cs, n) => some (c :: cs, n + 2)
        | none => none
      | none => none
  | c :: rest =>
    if c = '\\' then none
    else
      match strBody rest with
      | some (cs, n) => some (c :: cs, n + 1)
      | none => none

/-- Numeric-literal payload after the optional sign: digits, optional
.digits, optional exponent.  Returns the JSNum value (exact when integral,
unrep otherwise) and the consumed length. -/
def numBody (rest : List Char) : Option (JSNum × Nat) :=
  let digits := rest.takeWhile Char.isDigit
  if digits.isEmpty then none
  else
    let intVal : Int := digits.foldl (fun a c => a * 10 + (c.toNat - '0'.toNat)) 0
    let p1 := rest.drop digits.length
    let fracDigits :=
      match p1 with
      | '.' :: r2 =>
        let fs := r2.takeWhile Char.isDigit
        if fs.isEmpty then [] else fs
      | _ => []
    let fracLen := if fracDigits.isEmpty then 0 else fracDigits.length + 1
    let p2 := p1.drop fracLen
    let expPart : Option (Int × Nat) :=
      match p2 with
      | c :: r2 =>
        if c = 'e' || c = 'E' then
          match r2 with
          | s :: r3 =>
            if s = '-' || s = '+' then
              let ds := r3.takeWhile Char.isDigit
              if ds.isEmpty then none
              else
                let v : Int := ds.foldl (fun a ch => a * 10 + (ch.toNat - '0'.toNat)) 0
                some ((if s = '-' then -v else v), ds.length + 2)
            else
              let ds := r2.takeWhile Char.isDigit
              if ds.isEmpty then none
              else some (ds.foldl (fun a ch => a * 10 + (ch.toNat - '0'.toNat)) 0, ds.length + 1)
          | [] => none
        else none
      | [] => none
    let expVal : Int := (expPart.map Prod.fst).getD 0
    let expLen : Nat := (expPart.map Prod.snd).getD 0
    let mantissa : Int := fracDigits.foldl (fun a c => a * 10 + (c.toNat - '0'.toNat)) intVal
    let scale : Int := expVal - fracDigits.length
    let value : JSNum :=
      if scale ≥ 0 then .num (mantissa * 10 ^ scale.toNat)
      else if (10 ^ (-scale).toNat : Int) ∣ mantissa then .num (mantissa / 10 ^ (-scale).toNat)
      else .unrep
    some (value, digits.length + fracLen + expLen)

/-- Try the regex alternatives, in source order, at one position. -/
def matchTokAt (cs : List Char) (pos : Nat) : Option (Tok × Nat) :=
  let prev := if pos = 0 then none else cs.get? (pos - 1)
  let wordBoundary := match prev with | none => true | some c => !isWordChar c
  let rest := cs.drop pos
  -- 1: whitespace
  let w := rest.takeWhile isWsChar
  if !w.isEmpty then some (.ws, pos + w.length)
  else
    match rest with
    | [] => none
    | c0 :: r1 =>
      -- 2: comment  ;[^\n]*(\n|$)
      if c0 = ';' then
        let body := r1.takeWhile (fun c => c != '\n')
        let afterPos := pos + 1 + body.length
        match cs.get? afterPos with
        | some _ => some (.comment, afterPos + 1)
        | none => some (.comment, afterPos)
      -- 3: string literal
      else if c0 = '"' then
        match strBody r1 with
        | some (body, n) => some (.str (String.mk body), pos + 1 + n)
        | none =>
          -- fall through to the later alternatives, none of which matches
          -- a double quote
          none
      else
        -- 4: number ([-+]?digits…)
        let numTry : Option (Tok × Nat) :=
          if c0 = '-' || c0 = '+' then
            match numBody r1 with
            | some (v, n) =>
              some (.num (if c0 = '-' then JSNum.negate v else v), pos + 1 + n)
            | none => none
          else
            match numBody rest with
            | some (v, n) => some (.num v, pos + n)
            | none => none
        match numTry with
        | some t => some t
        | none =>
          -- 5: identifier (\b[a-zA-Z][_a-zA-Z0-9]*\b)
          if wordBoundary && c0.isAlpha then
            let name := c0 :: r1.takeWhile isWordChar
            some (.ident (String.mk name), pos + name.length)
          -- 6: [-+]Infinity\b
          else if (c0 = '-' || c0 = '+') &&
              r1.take 8 = ['I', 'n', 'f', 'i', 'n', 'i', 't', 'y'] &&
              (match r1.get? 8 with | some c => !isWordChar c | none => true) then
            some (.infTok (c0 = '-'), pos + 9)
          -- 7: operator characters
          else if isOpChar c0 then
            let run := rest.takeWhile isOpChar
            some (.opTok (String.mk run), pos + run.length)
          -- 8: $digits\b
          else if c0 = '$' then
            let ds := r1.takeWhile Char.isDigit
            if !ds.isEmpty &&
                (match r1.get? ds.length with | some c => !isWordChar c | none => true) then
              some (.argRef (ds.foldl (fun a c => a * 10 + (c.toNat - '0'.toNat)) 0), pos + 1 + ds.length)
            else none
          -- 9: punctuation
          else if isPunctChar c0 then some (.punct c0, pos + 1)
          else none

/-- The forward search of RegExp.exec with a global (non-sticky) pattern:
the first position at or after the last index where an alternative
matches. -/
def findTok (cs : List Char) : Nat → Nat → Option (Tok × Nat)
  | 0, _ => none
  | fuel+1, pos =>
    if pos ≥ cs.length then none
    else
      match matchTokAt cs pos with
      | some r => some r
      | none => findTok cs fuel (pos + 1)

/-- Items collected inside a `(fn …` form: parameter identifiers and (at
most one, the last) body value. -/
inductive FnItem where
  | fid (s : String)
  | fval (v : Logic)

/-- The parser's explicit state stack (ParseState of src/parser.ts);
the top of the stack is the head of the list here. -/
inductive PState where
  | pval (v : Logic)
  | parr (items : List Logic)
  | pcall (items : List Logic)
  | pfn (args : List FnItem)
  | pobj (fields : List (String × Logic))
  | pkey (fields : List (String × Logic)) (key : String)
  | pkeyval (fields : List (String × Logic)) (key : String)

/-- `String(value)` for an object key (only primitive keys are possible at
this point — pushVal rejects objects first). -/
def keyString : Logic → Option String
  | .lstr s => some s
  | .lnum n => numToString? n
  | .lbool b => some (if b then "true" else "false")
  | .lnull => some "null"
  | _ => none

/-- pushVal of src/parser.ts: deliver a completed value to the state on
top of the stack (or make it the root value on an empty stack). -/
def pushVal (stack : List PState) (value : Logic) : Except Err (List PState) :=
  match stack with
  | [] => .ok [.pval value]
  | top :: rest =>
    match top with
    | .parr items => .ok (.parr (items ++ [value]) :: rest)
    | .pcall items => .ok (.pcall (items ++ [value]) :: rest)
    | .pobj fields =>
      match value with
      | .lobj _ => .error .syntaxError
      | .lop _ => .error .syntaxError
      | _ =>
        match keyString value with
        | some k => .ok (.pkey fields k :: rest)
        | none => .error .unmodeled
    | .pkeyval fields key => .ok (.pobj (aSet fields key value) :: rest)
    | .pfn args =>
      match args.getLast? with
      | some (.fval _) => .error .syntaxError
      | _ => .ok (.pfn (args ++ [.fval value]) :: rest)
    | _ => .error .syntaxError

/-- The identifier branch of the token loop.  The reserved literals become
values; otherwise, on an empty stack the source pushes `['var', ident]` and
then falls through to inspect the stack top — which is now the freshly
pushed value state, hitting the final `Unexpected identifier` throw (the
fall-through is kept as-is). -/
def identStep (stack : List PState) (name : String) : Except Err (List PState) :=
  if name = "Infinity" then pushVal stack (.lnum (.inf false))
  else if name = "NaN" then pushVal stack (.lnum .nan)
  else if name = "null" then pushVal stack .lnull
  else if name = "true" then pushVal stack (.lbool true)
  else if name = "false" then pushVal stack (.lbool false)
  else do
    let stack1 ← if stack.isEmpty then pushVal stack (.lop [.lstr "var", .lstr name]) else .ok stack
    match stack1 with
    | .pcall args :: rest =>
      if args.isEmpty && name = "fn" then .ok (.pfn [] :: rest)
      else if (args.headD .lnull).isStr "var" || (args.headD .lnull).isStr "arg" ||
          (args.length = 1 && (args.headD .lnull).isStr "partial") then
        .ok (.pcall (args ++ [.lstr name]) :: rest)
      else if args.length > 0 then
        .ok (.pcall (args ++ [.lop [.lstr "var", .lstr name]]) :: rest)
      else .ok (.pcall (args ++ [.lstr name]) :: rest)
    | .pfn args :: rest =>
      match args.getLast? with
      | some (.fval _) => .error .syntaxError
      | _ => .ok (.pfn (args ++ [.fid name]) :: rest)
    | .parr items :: rest =>
      .ok (.parr (items ++ [.lop [.lstr "var", .lstr name]]) :: rest)
    | .pobj _ :: _ => pushVal stack1 (.lstr name)
    | _ => .error .syntaxError

/-- The operator-token branch: only the head position of a call form (or
the second position of `(partial …`) accepts an operator name. -/
def opStep (stack : List PState) (op : String) : Except Err (List PState) :=
  match stack with
  | [] => .error .syntaxError
  | .pcall array :: rest =>
    if array.length = 1 && (array.headD .lnull).isStr "partial" then
      .ok (.pcall (array ++ [.lstr op]) :: rest)
    else if array.length > 0 then .error .syntaxError
    else .ok (.pcall (array ++ [.lstr op]) :: rest)
  | _ => .error .syntaxError

/-- Closing a `(fn …` form: the last collected item (default a null value)
becomes the body — an identifier body becomes a `var` reference — and the
other items become the parameter array. -/
def closeFn (args : List FnItem) : Logic :=
  let body : Logic :=
    match args.getLast? with
    | some (.fid s) => .lop [.lstr "var", .lstr s]
    | some (.fval v) => v
    | none => .lnull
  let params : List Logic :=
    args.dropLast.map (fun it => match it with | .fid s => .lstr s | .fval v => v)
  .lop [.lstr "fn", .lop params, body]

/-- The structural `let` validation performed when a call form closes:
the 2-argument form needs a non-primitive first argument, the 3-argument
form a name (a `(var name)` node is normalized to the bare string). -/
def closeLet (args : List Logic) : Except Err (List Logic) :=
  if (args.headD .lnull).isStr "let" then
    match args.length with
    | 3 =>
      match args.getD 1 .lnull with
      | .lop _ => .ok args
      | .lobj _ => .ok args
      | .lnull => .ok args
      | _ => .error .syntaxError
    | 4 =>
      match args.getD 1 .lnull with
      | .lop arr =>
        if (arr.headD .lnull).isStr "var" then
          match arr with
          | [_, .lstr name] => .ok (args.set 1 (.lstr name))
          | _ => .error .syntaxError
        else .ok args
      | .lstr _ => .ok args
      | _ => .error .syntaxError
    | _ => .error .syntaxError
  else .ok args

/-- The punctuation branch of the token loop. -/
def punctStep (stack : List PState) (c : Char) : Except Err (List PState) :=
  if c = '[' then .ok (.parr [.lstr "array"] :: stack)
  else if c = '(' then .ok (.pcall [] :: stack)
  else if c = '{' then .ok (.pobj [] :: stack)
  else if c = ':' then
    match stack with
    | .pkey fields key :: rest => .ok (.pkeyval fields key :: rest)
    | _ => .error .syntaxError
  else if c = ']' then
    match stack with
    | .parr items :: rest => pushVal rest (.lop items)
    | _ => .error .syntaxError
  else if c = ')' then
    match stack with
    | .pfn args :: rest => pushVal rest (closeFn args)
    | .pcall args :: rest =>
      if args.isEmpty then .error .syntaxError
      else do
        let args1 ← closeLet args
        pushVal rest (.lop args1)
    | _ => .error .syntaxError
  else if c = '}' then
    match stack with
    | .pobj fields :: rest => pushVal rest (.lobj fields)
    | _ => .error .syntaxError
  else .error .syntaxError

/-- One token applied to the parser stack. -/
def parseStep (stack : List PState) : Tok → Except Err (List PState)
  | .ws => .ok stack
  | .comment => .ok stack
  | .str s => pushVal stack (.lstr s)
  | .num n => pushVal stack (.lnum n)
  | .infTok neg => pushVal stack (.lnum (.inf neg))
  | .argRef n => pushVal stack (.lop [.lstr "arg", lint n])
  | .ident name => identStep stack name
  | .opTok s => opStep stack s
  | .punct c => punctStep stack c

/-- The tokenize-and-reduce loop of parseLogic. -/
def parseLoop (cs : List Char) : Nat → Nat → List PState → Except Err (List PState)
  | 0, _, _ => .error .outOfFuel
  | fuel+1, lastIndex, stack =>
    if lastIndex ≥ cs.length then .ok stack
    else
      match findTok cs (cs.length + 1) lastIndex with
      | none => .error .syntaxError
      | some (tok, newPos) => do
        let stack1 ← parseStep stack tok
        parseLoop cs fuel newPos stack1

/-- parseLogic: tokenize and reduce, then demand exactly one completed
value on the stack. -/
def parseLogic (src : String) : Except Err Logic := do
  let cs := src.data
  let stack ← parseLoop cs (cs.length + 1) 0 []
  match stack with
  | [.pval v] => .ok v
  | _ => .error .syntaxError

/-! ## Per-call registry setup (execLogic lines 933-949, compileLogic lines
79-95: identical in both) -/

/-- Object.assign onto an ordered string map: every pair of `extra` is
written in order; an existing key keeps its position, a new one is
appended. -/
def jsObjectAssign {α : Type} (base extra : List (String × α)) : List (String × α) :=
  extra.foldl (fun acc kv => aSet acc kv.1 kv.2) base

/-- The registry/safety-table setup both engines run per call:
`safeFnargs = allowTuringComplete ? null : Object.assign(Object.create(null),
_SAFE_FNARGS)`, then for every custom operation name a validity check (an
invalid name throws Error) and — outside Turing-complete mode — a delete
from the fresh copy; finally `operations` is either `_BUILTINS` itself (no
custom operations) or a fresh object with the built-ins written first and
the custom operations after (shadowing). -/
def setupRegistry {α : Type} (builtins : List (String × α))
    (customOps : Option (List (String × α))) (atc : Bool) :
    Except Err (List (String × α) × Option (List (String × List Bool))) :=
  let safe0 : Option (List (String × List Bool)) :=
    if atc then none else some (jsObjectAssign [] SAFE_FNARGS)
  match customOps with
  | none => .ok (builtins, safe0)
  | some custom => do
    let safe1 ← custom.foldlM
      (fun acc kv =>
        if !isValidName kv.1 then .error Err.jsError
        else .ok (if atc then acc
          else acc.map (fun tbl => tbl.filter (fun p => !(p.1 == kv.1)))))
      safe0
    .ok (jsObjectAssign (jsObjectAssign [] builtins) custom, safe1)

/-! ## Support for the if-form characterization -/

/-- A leaf literal (evaluates to itself without touching the store). -/
def isAtom : Logic → Bool
  | .lnull => true
  | .lbool _ => true
  | .lnum _ => true
  | .lstr _ => true
  | _ => false

/-- The value of a leaf literal. -/
def atomVal : Logic → Value
  | .lnull => .vnull
  | .lbool b => .vbool b
  | .lnum n => .vnum n
  | .lstr s => .vstr s
  | _ => .vnull

/-- Interleave condition/value pairs the way an if node lists them. -/
def pairsFlat : List (Logic × Logic) → List Logic
  | [] => []
  | (c, v) :: rest => c :: v :: pairsFlat rest

/-- The if node `['if', c1, v1, …, cn, vn, els]`. -/
def ifNodeWith (pairs : List (Logic × Logic)) (els : Logic) : Logic :=
  .lop (.lstr "if" :: (pairsFlat pairs ++ [els]))

/-- The if node `['if', c1, v1, …, cn, vn]` without an else. -/
def ifNodeNoElse (pairs : List (Logic × Logic)) : Logic :=
  .lop (.lstr "if" :: pairsFlat pairs)

/-- The value paired with the first truthy condition, if any. -/
def firstTruthy (σ : Store) : List (Logic × Logic) → Option Logic
  | [] => none
  | (c, v) :: rest =>
    if isTruthy σ (atomVal c) then some v else firstTruthy σ rest

/-! ## Concrete programs and their compiled byte code -/

/-- `["+", 1, 2, 3]` (the parse of `(+ 1 2 3)`). -/
def plusProg : Logic := .lop [.lstr "+", lint 1, lint 2, lint 3]

/-- What compileLogic emits for plusProg: Push 1, Push 2, Add, Push 3, Add,
Return. -/
def plusCode : List Cell :=
  [ci 0, Cell.cnum (.num 1), ci 0, Cell.cnum (.num 2), ci 5,
   ci 0, Cell.cnum (.num 3), ci 5, ci 40]

/-- `["+", 0, 0, ["if", true, 1, 2]]`: a well-formed program both engines
accept. -/
def c1Prog : Logic :=
  .lop [.lstr "+", lint 0, lint 0, .lop [.lstr "if", .lbool true, lint 1, lint 2]]

/-- What compileLogic emits for c1Prog.  The if node's patch loop has run
`for (const ref in refs)` over the index keys of refs = [11], so it wrote
the join location 16 over code[0] (destroying the leading Push) and left
the collected Jmp operand at cell 12 at -1. -/
def c1Code : List Cell :=
  [ci 16, Cell.cnum (.num 0), ci 0, Cell.cnum (.num 0), ci 5,
   ci 0, Cell.cbool true, ci 30, Cell.cnum (.num 13), ci 0, Cell.cnum (.num 1),
   ci 28, Cell.cnum (.num (-1)), ci 1, ci 0, Cell.cnum (.num 2), ci 5, ci 40]

/-- `["map", ["array", 1], ["partial", ["fn", ["x"], ["var", "x"]]]]`, the
program `(map [1] (partial (fn (x) x)))`. -/
def c2Prog : Logic :=
  .lop [.lstr "map", .lop [.lstr "array", lint 1],
    .lop [.lstr "partial", .lop [.lstr "fn", .lop [.lstr "x"], .lop [.lstr "var", .lstr "x"]]]]

/-- `["length", ["partial", "id"]]`: another construction threading a
closure value into an unsafe argument position of a built-in. -/
def c2bProg : Logic := .lop [.lstr "length", .lop [.lstr "partial", .lstr "id"]]

/-- `(if (< 1 2) "a" "b")`. -/
def c3aProg : Logic :=
  .lop [.lstr "if", .lop [.lstr "<", lint 1, lint 2], .lstr "a", .lstr "b"]

/-- `(if false "a" false "b" "c")`. -/
def c3bProg : Logic :=
  .lop [.lstr "if", .lbool false, .lstr "a", .lbool false, .lstr "b", .lstr "c"]

/-- `(let x 1 (let x 2 (var x)))`. -/
def c5Prog : Logic :=
  .lop [.lstr "let", .lstr "x", lint 1,
    .lop [.lstr "let", .lstr "x", lint 2, .lop [.lstr "var", .lstr "x"]]]

/-- `(let x 1 (let y (var x) (var y)))`: a later initializer reading an
earlier sibling binding. -/
def c5SeqProg : Logic :=
  .lop [.lstr "let", .lstr "x", lint 1,
    .lop [.lstr "let", .lstr "y", .lop [.lstr "var", .lstr "x"], .lop [.lstr "var", .lstr "y"]]]

/-- `["and"]`: an and node with no argument. -/
def c6BadAnd : Logic := .lop [.lstr "and"]

/-- `["+", 1, ["and"]]`: the same malformed node nested inside a program. -/
def c6Nested : Logic := .lop [.lstr "+", lint 1, .lop [.lstr "and"]]

/-- What compileLogic emits for c6Nested: the nested ["and"] passes the
`code.length < 2` arity check (two cells are already emitted) and compiles
to Push "and". -/
def c6Code : List Cell :=
  [ci 0, Cell.cnum (.num 1), ci 0, Cell.cstr "and", ci 5, ci 40]

/-- `["+", "foo", 7, ["if", ["!", ["!", 0]], ["+", 1, 2], ["+", 1, 2]]]`:
a well-formed program whose if node sits at the position that makes the
broken patch loop write the join location 24 — the opcode of SetVar — over
the leading `Push "foo"`. -/
def c9Prog : Logic :=
  .lop [.lstr "+", .lstr "foo", lint 7,
    .lop [.lstr "if", .lop [.lstr "!", .lop [.lstr "!", lint 0]],
      .lop [.lstr "+", lint 1, lint 2], .lop [.lstr "+", lint 1, lint 2]]]

/-- What compileLogic emits for c9Prog: cell 0 has become SetVar (24), so
the VM's first step writes into the root scope — the host-supplied input
object. -/
def c9Code : List Cell :=
  [ci 24, Cell.cstr "foo", ci 0, Cell.cnum (.num 7), ci 5,
   ci 0, Cell.cnum (.num 0), ci 17, ci 17, ci 30, Cell.cnum (.num 18),
   ci 0, Cell.cnum (.num 1), ci 0, Cell.cnum (.num 2), ci 5,
   ci 28, Cell.cnum (.num (-1)), ci 1,
   ci 0, Cell.cnum (.num 1), ci 0, Cell.cnum (.num 2), ci 5, ci 5, ci 40]

/-! ## The if form: left-to-right first-truthy semantics -/

theorem pairsFlat_length (pairs : List (Logic × Logic)) :
    (pairsFlat pairs).length = 2 * pairs.length := by
  induction pairs with
  | nil => rfl
  | cons p rest ih => simp [pairsFlat, ih]; ring

theorem toVal_ok (v : Value) (σ : Store) :
    toVal (.ok (.val v, σ)) = .ok (v, σ) := rfl

theorem evalGo_atom (ctx : Ctx) (f : Nat) (code : Logic) (scope : Nat)
    (fnargs : List Value) (σ : Store) (h : isAtom code = true) :
    evalGo ctx (f+1) (.intern code scope fnargs) σ = .ok (.val (atomVal code), σ) := by
  cases code with
  | lnull => rfl
  | lbool b => rfl
  | lnum n => rfl
  | lstr s => rfl
  | lop xs => simp [isAtom] at h
  | lobj fs => simp [isAtom] at h

theorem evalGo_ifLoop_cons (ctx : Ctx) (f : Nat) (c v : Logic) (rest : List Logic)
    (scope : Nat) (fnargs : List Value) (σ : Store) :
    evalGo ctx (f+1) (.ifLoop (c :: v :: rest) scope fnargs) σ =
      (do
        let (cv, σ1) ← toVal (evalGo ctx f (.intern c scope fnargs) σ)
        if isTruthy σ1 cv then evalGo ctx f (.intern v scope fnargs) σ1
        else
          match rest with
          | [] => .ok (.val .vnull, σ1)
          | [e] => evalGo ctx f (.intern e scope fnargs) σ1
          | _ => evalGo ctx f (.ifLoop rest scope fnargs) σ1) := rfl

theorem evalGo_ifLoop_atoms (ctx : Ctx) :
    ∀ (pairs : List (Logic × Logic)) (tl : List Logic) (scope : Nat)
      (fnargs : List Value) (σ : Store) (f : Nat),
      pairs ≠ [] →
      (pairsFlat pairs).all isAtom = true →
      tl.all isAtom = true → tl.length ≤ 1 →
      pairs.length + 1 ≤ f →
      evalGo ctx f (.ifLoop (pairsFlat pairs ++ tl) scope fnargs) σ =
        .ok (.val (match firstTruthy σ pairs with
          | some v => atomVal v
          | none => match tl with | [e] => atomVal e | _ => .vnull), σ) := by
  intro pairs
  induction pairs with
  | nil => intro tl scope fnargs σ f hne _ _ _ _; exact absurd rfl hne
  | cons p rest ih =>
    intro tl scope fnargs σ f _ hp htl htl1 hf
    obtain ⟨c, v⟩ := p
    simp only [pairsFlat, List.all_cons, Bool.and_eq_true] at hp
    obtain ⟨hc, hv, hrest⟩ := hp
    simp only [List.length_cons] at hf
    obtain ⟨f2, rfl⟩ : ∃ f2, f = f2 + 1 + 1 := ⟨f - 2, by omega⟩
    have hf1 : rest.length + 1 ≤ f2 + 1 := by omega
    show evalGo ctx (f2+1+1) (.ifLoop (c :: v :: (pairsFlat rest ++ tl)) scope fnargs) σ = _
    rw [evalGo_ifLoop_cons, evalGo_atom ctx f2 c scope fnargs σ hc, toVal_ok]
    simp only [bind, Except.bind]
    by_cases hT : isTruthy σ (atomVal c)
    · rw [if_pos hT, evalGo_atom ctx f2 v scope fnargs σ hv]
      simp [firstTruthy, hT]
    · rw [if_neg hT]
      simp only [firstTruthy, hT, if_false, Bool.false_eq_true]
      cases rest with
      | nil =>
        simp only [pairsFlat, List.nil_append]
        match tl, htl1 with
        | [], _ => rfl
        | [e], _ =>
          simp only [List.all_cons, Bool.and_eq_true] at htl
          show evalGo ctx (f2+1) (.intern e scope fnargs) σ = _
          rw [evalGo_atom ctx f2 e scope fnargs σ htl.1]
          rfl
      | cons p2 rest2 =>
        obtain ⟨c2, v2⟩ := p2
        have hne2 : (pairsFlat ((c2, v2) :: rest2) ++ tl) = c2 :: v2 :: (pairsFlat rest2 ++ tl) := by
          simp [pairsFlat]
        rw [show (match pairsFlat ((c2, v2) :: rest2) ++ tl with
            | [] => (Except.ok (.val .vnull, σ) : Except Err (Resp × Store))
            | [e] => evalGo ctx (f2+1) (.intern e scope fnargs) σ
            | _ => evalGo ctx (f2+1) (.ifLoop (pairsFlat ((c2, v2) :: rest2) ++ tl) scope fnargs) σ) =
          evalGo ctx (f2+1) (.ifLoop (pairsFlat ((c2, v2) :: rest2) ++ tl) scope fnargs) σ by rw [hne2]]
        exact ih tl scope fnargs σ (f2+1) (by simp)
          (by simpa [pairsFlat] using hrest) htl htl1 (by simpa using hf1)

theorem evalGo_intern_if (ctx : Ctx) (f : Nat) (args : List Logic)
    (scope : Nat) (fnargs : List Value) (σ : Store) :
    evalGo ctx (f+1) (.intern (.lop (.lstr "if" :: args)) scope fnargs) σ =
      (if args.length < 2 then .error .syntaxError
       else evalGo ctx f (.ifLoop args scope fnargs) σ) := rfl

theorem evalIntern_if_atoms (ctx : Ctx) (pairs : List (Logic × Logic)) (els : Logic)
    (scope : Nat) (fnargs : List Value) (σ : Store) (f : Nat)
    (hne : pairs ≠ []) (hp : (pairsFlat pairs).all isAtom = true)
    (hels : isAtom els = true) (hf : pairs.length + 2 ≤ f) :
    evalIntern ctx f (ifNodeWith pairs els) scope fnargs σ =
      .ok ((firstTruthy σ pairs).elim (atomVal els) atomVal, σ) := by
  obtain ⟨f1, rfl⟩ : ∃ f1, f = f1 + 1 := ⟨f - 1, by omega⟩
  show toVal (evalGo ctx (f1+1) (.intern (.lop (.lstr "if" :: (pairsFlat pairs ++ [els]))) scope fnargs) σ) = _
  rw [evalGo_intern_if]
  rw [if_neg (by
    have hlen : 0 < pairs.length := List.length_pos.mpr hne
    simp [pairsFlat_length]; omega)]
  rw [evalGo_ifLoop_atoms ctx pairs [els] scope fnargs σ f1 hne hp
    (by simp [hels]) (by simp) (by omega)]
  cases h : firstTruthy σ pairs <;> simp [h, toVal, Option.elim]

theorem evalIntern_if_atoms_noelse (ctx : Ctx) (pairs : List (Logic × Logic))
    (scope : Nat) (fnargs : List Value) (σ : Store) (f : Nat)
    (hne : pairs ≠ []) (hp : (pairsFlat pairs).all isAtom = true)
    (hf : pairs.length + 2 ≤ f) :
    evalIntern ctx f (ifNodeNoElse pairs) scope fnargs σ =
      .ok ((firstTruthy σ pairs).elim .vnull atomVal, σ) := by
  obtain ⟨f1, rfl⟩ : ∃ f1, f = f1 + 1 := ⟨f - 1, by omega⟩
  show toVal (evalGo ctx (f1+1) (.intern (.lop (.lstr "if" :: pairsFlat pairs)) scope fnargs) σ) = _
  rw [evalGo_intern_if]
  rw [if_neg (by
    have hlen : 0 < pairs.length := List.length_pos.mpr hne
    rw [pairsFlat_length]
    omega)]
  have hmain := evalGo_ifLoop_atoms ctx pairs [] scope fnargs σ f1 hne hp
    (by simp) (by simp) (by omega)
  rw [List.append_nil] at hmain
  rw [hmain]
  cases h : firstTruthy σ pairs <;> simp [h, toVal, Option.elim]


/-! ## Registry setup: lookup characterizations -/

theorem aGet_append {α : Type} (xs ys : List (String × α)) (k : String) :
    aGet (xs ++ ys) k = (aGet xs k).orElse (fun _ => aGet ys k) := by
  induction xs with
  | nil => simp [aGet, Option.orElse]
  | cons p rest ih =>
    obtain ⟨k0, v0⟩ := p
    by_cases h : k0 = k <;> simp [aGet, h, ih, Option.orElse]

theorem aGet_aSet {α : Type} (m : List (String × α)) (k k' : String) (v : α) :
    aGet (aSet m k v) k' = if k = k' then some v else aGet m k' := by
  induction m with
  | nil => simp [aSet, aGet]
  | cons p rest ih =>
    obtain ⟨k0, v0⟩ := p
    simp only [aSet]
    by_cases h : k0 = k
    · rw [if_pos h]
      subst h
      simp only [aGet]
      by_cases h' : k0 = k' <;> simp [h', aGet]
    · rw [if_neg h]
      simp only [aGet]
      by_cases h' : k0 = k'
      · have hkk : ¬ k = k' := fun e => h (h'.trans e.symm)
        simp [h', hkk]
      · simp [h', ih]

theorem aGet_assign {α : Type} (extra base : List (String × α)) (k : String) :
    aGet (jsObjectAssign base extra) k =
      (aGetLast extra k).orElse (fun _ => aGet base k) := by
  induction extra generalizing base with
  | nil => simp [jsObjectAssign, aGetLast, aGet, List.foldl, Option.orElse]
  | cons p rest ih =>
    obtain ⟨k0, v0⟩ := p
    show aGet (jsObjectAssign (aSet base k0 v0) rest) k = _
    rw [ih]
    simp only [aGetLast, List.reverse_cons, aGet_append, aGet_aSet]
    cases h : aGet rest.reverse k <;>
      by_cases h0 : k0 = k <;> simp [Option.orElse, aGet, h0]

theorem aGet_filter_ne {α : Type} (tbl : List (String × α)) (n k : String) :
    aGet (tbl.filter (fun p => !(p.1 == n))) k =
      if k = n then none else aGet tbl k := by
  induction tbl with
  | nil => simp [aGet]
  | cons p rest ih =>
    obtain ⟨k0, v0⟩ := p
    rw [List.filter_cons]
    by_cases h0 : k0 = n
    · have hcond : (!((k0, v0).1 == n)) = false := by simp [h0]
      rw [hcond, if_neg (by simp)]
      rw [ih]
      by_cases hk : k = n
      · simp [hk]
      · have hne : ¬ (k0 = k) := fun e => hk (e ▸ h0)
        simp [hk, aGet, hne]
    · have hcond : (!((k0, v0).1 == n)) = true := by simp [h0]
      rw [hcond, if_pos rfl]
      simp only [aGet]
      by_cases hk : k0 = k
      · have hkn : ¬ k = n := fun e => h0 (hk.trans e)
        simp [hk, hkn]
      · rw [if_neg hk, ih]
        by_cases hkn : k = n <;> simp [hkn, hk]

theorem aGet_fold_filter {α β : Type} (custom : List (String × α))
    (tbl : List (String × β)) (k : String) :
    aGet (custom.foldl (fun t kv => t.filter (fun p => !(p.1 == kv.1))) tbl) k =
      if k ∈ custom.map Prod.fst then none else aGet tbl k := by
  induction custom generalizing tbl with
  | nil => simp
  | cons p rest ih =>
    obtain ⟨k0, v0⟩ := p
    show aGet (rest.foldl _ (tbl.filter (fun p => !(p.1 == k0)))) k = _
    rw [ih, aGet_filter_ne]
    by_cases hmem : k ∈ rest.map Prod.fst <;> by_cases hk : k = k0 <;>
      simp [hmem, hk]

theorem exceptOkBind {ε α β : Type} (a : α) (g : α → Except ε β) :
    (Except.ok a >>= g) = g a := rfl

theorem setupRegistry_foldlM {α : Type} (atc : Bool) :
    ∀ (custom : List (String × α)) (acc : Option (List (String × List Bool))),
    (∀ p ∈ custom, isValidName p.1 = true) →
    (custom.foldlM
      (fun acc kv =>
        if !isValidName kv.1 then .error Err.jsError
        else .ok (if atc then acc
          else acc.map (fun tbl => tbl.filter (fun p => !(p.1 == kv.1)))))
      acc : Except Err (Option (List (String × List Bool)))) =
      .ok (custom.foldl
        (fun acc kv => if atc then acc
          else acc.map (fun tbl => tbl.filter (fun p => !(p.1 == kv.1)))) acc) := by
  intro custom
  induction custom with
  | nil => intro acc _; rfl
  | cons p rest ih =>
    intro acc hvalid
    have hp : isValidName p.1 = true := hvalid p (by simp)
    simp only [List.foldlM_cons, hp, Bool.not_true, Bool.false_eq_true, if_false,
      exceptOkBind, List.foldl_cons]
    exact ih _ (fun q hq => hvalid q (List.mem_cons_of_mem _ hq))

theorem fold_step_some {α : Type} (custom : List (String × α))
    (tbl : List (String × List Bool)) :
    custom.foldl
      (fun (acc : Option (List (String × List Bool))) kv => if false then acc
        else acc.map (fun t => t.filter (fun p => !(p.1 == kv.1)))) (some tbl) =
      some (custom.foldl (fun t kv => t.filter (fun p => !(p.1 == kv.1))) tbl) := by
  induction custom generalizing tbl with
  | nil => rfl
  | cons p rest ih => simpa using ih _

theorem setupRegistry_none {α : Type} (builtins : List (String × α)) (atc : Bool) :
    setupRegistry builtins none atc =
      .ok (builtins, if atc then none else some (jsObjectAssign [] SAFE_FNARGS)) := by
  cases atc <;> rfl

theorem setupRegistry_custom {α : Type} (builtins custom : List (String × α))
    (hvalid : ∀ p ∈ custom, isValidName p.1 = true) :
    setupRegistry builtins (some custom) false =
      .ok (jsObjectAssign (jsObjectAssign [] builtins) custom,
        some (custom.foldl (fun tbl kv => tbl.filter (fun p => !(p.1 == kv.1)))
          (jsObjectAssign [] SAFE_FNARGS))) := by
  show (do
    let safe1 ← custom.foldlM
      (fun (acc : Option (List (String × List Bool))) (kv : String × α) =>
        if !isValidName kv.1 then (.error Err.jsError :
          Except Err (Option (List (String × List Bool))))
        else .ok (if false then acc
          else acc.map (fun (tbl : List (String × List Bool)) =>
            tbl.filter (fun p => !(p.1 == kv.1)))))
      (some (jsObjectAssign [] SAFE_FNARGS))
    (.ok (jsObjectAssign (jsObjectAssign [] builtins) custom, safe1) :
      Except Err (List (String × α) × Option (List (String × List Bool))))) = _
  rw [setupRegistry_foldlM false custom _ hvalid, exceptOkBind, fold_step_some]


/-! ## Truthiness: exact characterization of the falsy values -/

theorem isTruthy_eq_false_iff (σ : Store) (v : Value) :
    isTruthy σ v = false ↔
      (v = .vundef ∨ v = .vnull ∨ v = .vbool false ∨ v = .vnum (.num 0) ∨
       v = .vnum .nan ∨ v = .vstr "" ∨ v = .varr [] ∨ v = .vobj [] ∨
       ∃ a, v = .vref a ∧ chainHasKey σ (σ.length + 1) a = false) := by
  cases v with
  | vundef => simp [isTruthy, jsFalsy]
  | vnull => simp [isTruthy, jsFalsy]
  | vbool b => cases b <;> simp [isTruthy, jsFalsy]
  | vnum n =>
    cases n with
    | num q => by_cases h : q = 0 <;> simp [isTruthy, jsFalsy, h]
    | nan => simp [isTruthy, jsFalsy]
    | inf b => simp [isTruthy, jsFalsy]
    | unrep => simp [isTruthy, jsFalsy]
  | vstr s => by_cases h : s = "" <;> simp [isTruthy, jsFalsy, h]
  | varr xs => cases xs <;> simp [isTruthy, jsFalsy]
  | vobj fs => cases fs <;> simp [isTruthy, jsFalsy]
  | vref a => simp [isTruthy, jsFalsy]
  | vfun f => simp [isTruthy, jsFalsy]

/-! ## The claims -/

/-- C1: the evaluator and the compiled bytecode disagree.  On the
well-formed program `["+", 0, 0, ["if", true, 1, 2]]` (accepted by both
front ends) the tree-walking evaluator returns 1, but the compiler's
jump-patch loop (`for (const ref in refs)` iterates index keys, not
elements) has overwritten cell 0 with the join location 16 — the opcode of
ShiftRight — so the VM's very first instruction computes
`stack[0] >>= scope` and ToNumeric on the null-prototype scope object
throws a TypeError instead of returning 1. -/
theorem claim_C1_eval_vm_divergence :
    execLogic c1Prog none false = .ok (.vnum (.num 1))
    ∧ compileLogic c1Prog false = .ok c1Code
    ∧ execByteCode c1Code none = .error .typeError
    ∧ (Except.error Err.typeError : Except Err Value) ≠ .ok (.vnum (.num 1)) :=
  ⟨rfl, rfl, rfl, by simp⟩

/-- C2: with allowTuringComplete = false, `(map [1] (partial (fn (x) x)))`
raises a TypeError and the identical program with allowTuringComplete =
true returns [1]; a second construction threading a closure into an unsafe
argument position (`["length", ["partial", "id"]]`) behaves the same way;
in general, whenever the safety table does not whitelist an argument
position, a function value arriving there is rejected, and with the table
null (Turing-complete mode) nothing is rejected. -/
theorem claim_C2_sandbox :
    execLogic c2Prog none false = .error .typeError
    ∧ execLogic c2Prog none true = .ok (.varr [.vnum (.num 1)])
    ∧ execLogic c2bProg none false = .error .typeError
    ∧ execLogic c2bProg none true = .ok (.vnum (.num 0))
    ∧ (∀ (tbl : List (String × List Bool)) (op : String) (i : Nat) (f : Fn),
        safeAllows tbl op i = false →
        sandboxRejects (some tbl) op i (.vfun f) = true)
    ∧ (∀ (op : String) (i : Nat) (v : Value), sandboxRejects none op i v = false) :=
  ⟨rfl, rfl, rfl, rfl,
   fun tbl op i f h => by simp [sandboxRejects, h, isFnValue],
   fun op i v => rfl⟩

/-- C3: the if form tests its conditions left to right and returns the
value paired with the first truthy condition; with every condition falsy a
trailing unpaired value is the result, and without one the result is null
(shown for arbitrary chains of literal condition/value pairs, plus the two
concrete example programs). -/
theorem claim_C3_if_form :
    (∀ (ctx : Ctx) (pairs : List (Logic × Logic)) (els : Logic) (scope : Nat)
       (fnargs : List Value) (σ : Store) (f : Nat),
       pairs ≠ [] → (pairsFlat pairs).all isAtom = true → isAtom els = true →
       pairs.length + 2 ≤ f →
       evalIntern ctx f (ifNodeWith pairs els) scope fnargs σ =
         .ok ((firstTruthy σ pairs).elim (atomVal els) atomVal, σ))
    ∧ (∀ (ctx : Ctx) (pairs : List (Logic × Logic)) (scope : Nat)
       (fnargs : List Value) (σ : Store) (f : Nat),
       pairs ≠ [] → (pairsFlat pairs).all isAtom = true →
       pairs.length + 2 ≤ f →
       evalIntern ctx f (ifNodeNoElse pairs) scope fnargs σ =
         .ok ((firstTruthy σ pairs).elim .vnull atomVal, σ))
    ∧ execLogic c3aProg none false = .ok (.vstr "a")
    ∧ execLogic c3bProg none false = .ok (.vstr "c") :=
  ⟨fun ctx pairs els scope fnargs σ f h1 h2 h3 h4 =>
      evalIntern_if_atoms ctx pairs els scope fnargs σ f h1 h2 h3 h4,
   fun ctx pairs scope fnargs σ f h1 h2 h3 =>
      evalIntern_if_atoms_noelse ctx pairs scope fnargs σ f h1 h2 h3,
   by rfl, by rfl⟩

/-- C4 (counterexample): NaN refutes "every other value is truthy" — it is
falsy for isTruthy yet differs from null, false, 0, the empty string, the
empty array, the empty object (and undefined). -/
theorem claim_C4_truthiness_cex :
    isTruthy [] (.vnum .nan) = false
    ∧ (Value.vnum .nan) ≠ .vnull
    ∧ (Value.vnum .nan) ≠ .vbool false
    ∧ (Value.vnum .nan) ≠ .vnum (.num 0)
    ∧ (Value.vnum .nan) ≠ .vstr ""
    ∧ (Value.vnum .nan) ≠ .varr []
    ∧ (Value.vnum .nan) ≠ .vobj []
    ∧ (Value.vnum .nan) ≠ .vundef :=
  ⟨rfl, by simp, by simp, by simp, by simp, by simp, by simp, by simp⟩

/-- C4 (amended): the six concrete facts of the claim hold, and the exact
set of falsy values is: undefined, null, false, 0, NaN, the empty string,
the empty array, the empty object, and a scope object whose prototype
chain has no key. -/
theorem claim_C4_truthiness :
    isTruthy [] (.varr []) = false
    ∧ isTruthy [] (.varr [.vnum (.num 0)]) = true
    ∧ isTruthy [] (.vobj []) = false
    ∧ isTruthy [] (.vnum (.num 0)) = false
    ∧ isTruthy [] (.vstr "") = false
    ∧ isTruthy [] (.vstr "0") = true
    ∧ (∀ (σ : Store) (v : Value),
        isTruthy σ v = false ↔
          (v = .vundef ∨ v = .vnull ∨ v = .vbool false ∨ v = .vnum (.num 0) ∨
           v = .vnum .nan ∨ v = .vstr "" ∨ v = .varr [] ∨ v = .vobj [] ∨
           ∃ a, v = .vref a ∧ chainHasKey σ (σ.length + 1) a = false)) :=
  ⟨rfl, rfl, rfl, rfl, rfl, rfl, isTruthy_eq_false_iff⟩

/-- C5: `(let x 1 (let x 2 (var x)))` yields 2; the final store shows the
chain flattened into one child frame whose binding of x was overwritten in
place (the inner binding shadowed the outer); and an initializer sees
previously bound siblings (`(let x 1 (let y (var x) (var y)))` yields 1). -/
theorem claim_C5_let_shadowing :
    execLogic c5Prog none false = .ok (.vnum (.num 2))
    ∧ execLogicW 1000 c5Prog none false =
        .ok (.vnum (.num 2), [⟨[], none⟩, ⟨[("x", .vnum (.num 2))], some 0⟩])
    ∧ execLogic c5SeqProg none false = .ok (.vnum (.num 1)) :=
  ⟨rfl, rfl, rfl⟩

/-- C6: the compiler's arity checks read `code.length` — the output emitted
so far — instead of the node's length, so they only fire at the start of
the output: the evaluator rejects `["and"]` wherever it appears, and the
compiler rejects it at top level (where the output is still empty), but
`["+", 1, ["and"]]` compiles without error — the nested `["and"]` becomes
`Push "and"` — and the resulting bytecode even runs, returning NaN. -/
theorem claim_C6_compile_arity_divergence :
    execLogic c6BadAnd none false = .error .syntaxError
    ∧ execLogic c6Nested none false = .error .syntaxError
    ∧ compileLogic c6BadAnd false = .error .syntaxError
    ∧ compileLogic c6Nested false = .ok c6Code
    ∧ execByteCode c6Code none = .ok (.vnum .nan) :=
  ⟨rfl, rfl, rfl, rfl, rfl⟩

/-- C7: the parser's identifier case pushes `["var", ident]` for a bare
top-level identifier but then falls through into the context checks and
throws `Unexpected identifier`, so `"foo"` does not parse; the sugar does
work in enclosed value positions (`"[foo]"`, `"(id foo)"`). -/
theorem claim_C7_bare_identifier :
    parseLogic "foo" = .error .syntaxError
    ∧ parseLogic "[foo]" = .ok (.lop [.lstr "array", .lop [.lstr "var", .lstr "foo"]])
    ∧ parseLogic "(id foo)" = .ok (.lop [.lstr "id", .lop [.lstr "var", .lstr "foo"]]) :=
  ⟨rfl, rfl, rfl⟩

/-- C8: `(+ 1 2 3)` parses to `["+", 1, 2, 3]`, the evaluator returns 6,
and the compiled bytecode run through the VM also returns 6. -/
theorem claim_C8_plus_pipeline :
    parseLogic "(+ 1 2 3)" = .ok plusProg
    ∧ plusProg = .lop [.lstr "+", .lnum (.num 1), .lnum (.num 2), .lnum (.num 3)]
    ∧ execLogic plusProg none false = .ok (.vnum (.num 6))
    ∧ compileLogic plusProg false = .ok plusCode
    ∧ execByteCode plusCode none = .ok (.vnum (.num 6)) :=
  ⟨rfl, rfl, rfl, rfl, rfl⟩

/-- C9: the compile-plus-run pipeline mutates the host-supplied input
mapping.  On c9Prog the evaluator leaves the input frame untouched, but
the compiled code's clobbered cell 0 has become SetVar "foo", so the VM's
first step writes the binding ("foo" ↦ the root scope itself) into the
host input frame. -/
theorem claim_C9_input_mutation :
    compileLogic c9Prog false = .ok c9Code
    ∧ (execLogicW 1000 c9Prog (some ⟨[], none⟩) false).map
        (fun p => p.2.headD ⟨[], none⟩) = .ok ⟨[], none⟩
    ∧ (execByteCodeW 10000 c9Code (some ⟨[], none⟩)).map
        (fun p => (getFrame p.2.store 0).bindings) = .ok [("foo", .vref 0)]
    ∧ execByteCode c9Code (some ⟨[], none⟩) = .ok (.vnum (.num 10))
    ∧ ([("foo", Value.vref 0)] : List (String × Value)) ≠ [] :=
  ⟨rfl, rfl, rfl, rfl, by simp⟩

/-- C10: the per-call registry setup of both engines builds fresh tables:
without custom operations the call observes exactly the built-in registry
and a fresh copy of the safety annotations equal to the original; with
custom operations the call's registry is a fresh object holding the
built-ins overwritten by the customs (lookup prefers the last custom
binding and falls back to the built-ins), and every custom name is deleted
from the call's fresh safety copy while all other names keep their
original annotation. -/
theorem claim_C10_registry_isolation :
    (∀ (α : Type) (builtins : List (String × α)) (atc : Bool),
      setupRegistry builtins none atc =
        .ok (builtins, if atc then none else some (jsObjectAssign [] SAFE_FNARGS)))
    ∧ jsObjectAssign [] SAFE_FNARGS = SAFE_FNARGS
    ∧ (∀ (α : Type) (builtins custom : List (String × α)),
        (∀ p ∈ custom, isValidName p.1 = true) →
        setupRegistry builtins (some custom) false =
          .ok (jsObjectAssign (jsObjectAssign [] builtins) custom,
            some (custom.foldl (fun tbl kv => tbl.filter (fun p => !(p.1 == kv.1)))
              (jsObjectAssign [] SAFE_FNARGS))))
    ∧ (∀ (α : Type) (base extra : List (String × α)) (k : String),
        aGet (jsObjectAssign base extra) k =
          (aGetLast extra k).orElse (fun _ => aGet base k))
    ∧ (∀ (α β : Type) (custom : List (String × α)) (tbl : List (String × β)) (k : String),
        aGet (custom.foldl (fun t kv => t.filter (fun p => !(p.1 == kv.1))) tbl) k =
          if k ∈ custom.map Prod.fst then none else aGet tbl k) :=
  ⟨fun _ builtins atc => setupRegistry_none builtins atc,
   rfl,
   fun _ builtins custom hvalid => setupRegistry_custom builtins custom hvalid,
   fun _ base extra k => aGet_assign extra base k,
   fun _ _ custom tbl k => aGet_fold_filter custom tbl k⟩
